import Mathlib

/-!
Verification of the day-12 part-1 shape-packing solver

A shallow embedding of `src/day12/part1/index.ts` (a 2D polyomino-packing
feasibility solver) together with proofs and refutations of the specified
properties.

Modelling conventions:
* JS `boolean[][]` matrices become `List (List Bool)`; JS objects become
  structures with the same field names.
* JS numbers are natural numbers wherever the source only ever produces
  non-negative integers (all grid coordinates iterated by the enumerators
  start at 0); loop *end* bounds that can go negative in the source
  (`grid.width - present.width + 1`) are kept as `Int`, and a `for`
  loop `for (x = s; x < e; x++)` becomes the list `intRange s e` of its
  iterated values, which is empty when `e ≤ s` exactly as in JS.
* Out-of-range reads: JS `row[c]` yields `undefined` (falsy) for any
  `c` outside `[0, row.length)`, modelled by `List.getD _ _ false`;
  JS `cells[r]` likewise yields `undefined`, but then `undefined[c]`
  *throws*.  The one function for which the spec makes claims about
  negative coordinates is also embedded as
  `canShapeFitOnGridAtCoordinatesJS` over `Int` coordinates returning
  `Option Bool`, where `none` models the thrown `TypeError`.
* JS generators are finite here, so they are embedded as the `List` of
  their yielded values; `yield*` is `++`/`flatMap` and pulling the first
  element of the composed sequence corresponds to `List.isEmpty` of the
  full list (same boolean, laziness only affects cost).
* `Array.prototype.sort` with the source's comparator (which is not a
  consistent ordering) has implementation-defined output order; it is
  modelled with the structural `List.insertionSort` on the relation
  "comparator returns -1".  Every verdict below that involves the sorted
  pass is invariant under the choice of (permutation-producing) sort.
-/

/-- Source `type Shape = boolean[][]`. -/
abbrev Shape := List (List Bool)

/-- Source `type Grid = { width; height; widestRowWidth; highestColumnHeight; cells }`. -/
structure Grid where
  width : Nat
  height : Nat
  widestRowWidth : Nat
  highestColumnHeight : Nat
  cells : List (List Bool)
deriving DecidableEq, Repr

/-- Source `type Present = { width; height; coveredArea; shapeVariations }`. -/
structure Present where
  width : Nat
  height : Nat
  coveredArea : Nat
  shapeVariations : List Shape
deriving DecidableEq, Repr

/-- Source `type TreeRegion = { width; height; presentsToFit }`. -/
structure TreeRegion where
  width : Nat
  height : Nat
  presentsToFit : List Nat
deriving DecidableEq, Repr

/-- Source `shape[0].length`: the width the source ascribes to a shape
(the length of its first row; `[].headD` gives `0` for the empty shape,
where the source would throw). -/
def shapeWidth (s : Shape) : Nat := (s.headD []).length

/-- Source `shape.flat().filter((cell) => cell).length`. -/
def shapeCoveredArea (s : Shape) : Nat := s.flatten.count true

/-- Source `buildEmptyRegionGrid(rows, columns)`. -/
def buildEmptyRegionGrid (rows columns : Nat) : Grid :=
  { width := columns
    height := rows
    widestRowWidth := 0
    highestColumnHeight := 0
    cells := List.replicate rows (List.replicate columns false) }

/-- Occupancy read `cells[r][c]` at non-negative in-range coordinates
(out-of-range reads give `false`, the value JS code treats `undefined` as
in boolean position). -/
def cellGet (cells : List (List Bool)) (r c : Nat) : Bool :=
  (cells.getD r []).getD c false

/-- The inner loop of `placeShapeOnGridAtCoordinates`:
`for j: row[col + j] ||= srow[j]` on one grid row. -/
def rowWrite : List Bool → List Bool → Nat → List Bool
  | row, [], _ => row
  | row, b :: rest, c => rowWrite (row.set c (row.getD c false || b)) rest (c + 1)

/-- The two nested loops of `placeShapeOnGridAtCoordinates`:
`for i: for j: cells[row + i][col + j] ||= shape[i][j]`. -/
def writeShape : List (List Bool) → Shape → Nat → Nat → List (List Bool)
  | cells, [], _, _ => cells
  | cells, srow :: srest, row, col =>
      writeShape (cells.set row (rowWrite (cells.getD row []) srow col)) srest (row + 1) col

/-- Source `placeShapeOnGridAtCoordinates(grid, shape, row, col)`: a fresh grid with
the shape OR-ed in and the bounding envelope updated with `Math.max`. -/
def placeShapeOnGridAtCoordinates (grid : Grid) (shape : Shape) (row col : Nat) : Grid :=
  { width := grid.width
    height := grid.height
    widestRowWidth := max grid.widestRowWidth (col + shapeWidth shape)
    highestColumnHeight := max grid.highestColumnHeight (row + shape.length)
    cells := writeShape grid.cells shape row col }

/-- Inner loop of `canShapeFitOnGridAtCoordinates`:
`for j: if (gridRow[c + j] && srow[j]) return false`. -/
def rowFits (gridRow : List Bool) : List Bool → Nat → Bool
  | [], _ => true
  | b :: rest, c => !(gridRow.getD c false && b) && rowFits gridRow rest (c + 1)

/-- Outer loop of `canShapeFitOnGridAtCoordinates` over the shape's rows. -/
def shapeFits (cells : List (List Bool)) : Shape → Nat → Nat → Bool
  | [], _, _ => true
  | srow :: srest, row, col =>
      rowFits (cells.getD row []) srow col && shapeFits cells srest (row + 1) col

/-- Source `canShapeFitOnGridAtCoordinates(grid, shape, row, col)` at the
non-negative coordinates the enumerators actually pass to it. -/
def canShapeFitOnGridAtCoordinates (grid : Grid) (shape : Shape) (row col : Nat) : Bool :=
  if grid.height < row + shape.length || grid.width < col + shapeWidth shape then false
  else shapeFits grid.cells shape row col

/-- JS read `cells[r][c]` at arbitrary `Int` coordinates: `cells[r]` is
`undefined` outside `[0, cells.length)` and `undefined[c]` throws
(`none`); an existing row read out of range gives `undefined`, falsy
(`some false` view of the cell). -/
def getCellJS (cells : List (List Bool)) (r c : Int) : Option Bool :=
  if 0 ≤ r ∧ r < (cells.length : Int) then
    let row := cells.getD r.toNat []
    some (if 0 ≤ c ∧ c < (row.length : Int) then row.getD c.toNat false else false)
  else none

/-- Inner loop of `canShapeFitOnGridAtCoordinates` with JS out-of-range
semantics (a thrown `TypeError` is `none`). -/
def rowFitsJS (cells : List (List Bool)) : List Bool → Int → Int → Option Bool
  | [], _, _ => some true
  | b :: rest, r, c =>
      (getCellJS cells r c).bind fun cell =>
        if cell && b then some false else rowFitsJS cells rest r (c + 1)

/-- Outer loop of `canShapeFitOnGridAtCoordinates` with JS out-of-range
semantics. -/
def shapeFitsJS (cells : List (List Bool)) : Shape → Int → Int → Option Bool
  | [], _, _ => some true
  | srow :: srest, r, c =>
      (rowFitsJS cells srow r c).bind fun ok =>
        if ok then shapeFitsJS cells srest (r + 1) c else some false

/-- Source `canShapeFitOnGridAtCoordinates(grid, shape, row, col)` on arbitrary
`Int` coordinates, faithful to JS indexing: `none` models the `TypeError`
thrown when `grid.cells[row + i]` is `undefined` and a cell of that row is
then read. -/
def canShapeFitOnGridAtCoordinatesJS (grid : Grid) (shape : Shape) (row col : Int) :
    Option Bool :=
  if (grid.height : Int) < row + shape.length || (grid.width : Int) < col + shapeWidth shape then
    some false
  else shapeFitsJS grid.cells shape row col

/-- Source `generateAllValidWaysToFitPresentInGridAtCoordinates`: for each shape
variation in order, yield the placed grid if it fits. -/
def generateAllValidWaysToFitPresentInGridAtCoordinates (grid : Grid) (present : Present)
    (row col : Nat) : List Grid :=
  present.shapeVariations.filterMap fun shape =>
    if canShapeFitOnGridAtCoordinates grid shape row col then
      some (placeShapeOnGridAtCoordinates grid shape row col)
    else none

/-- The values taken by `for (x = start; x < stop; x++)` where `start` is
non-negative but `stop` may be a negative JS number. -/
def intRange (start : Nat) (stop : Int) : List Nat :=
  (List.range (stop - (start : Int)).toNat).map (start + ·)

/-- Source `generateAllValidWaysToFitPresentInGridForCoordinateRanges`: row-major
iteration (row outer, column inner) over the half-open coordinate ranges. -/
def generateAllValidWaysToFitPresentInGridForCoordinateRanges (grid : Grid) (present : Present)
    (rowStart : Nat) (rowStop : Int) (colStart : Nat) (colStop : Int) : List Grid :=
  (intRange rowStart rowStop).flatMap fun row =>
    (intRange colStart colStop).flatMap fun col =>
      generateAllValidWaysToFitPresentInGridAtCoordinates grid present row col

/-- The source's sort comparator `(a, b) => a.widestRowWidth < b.widestRowWidth
&& a.highestColumnHeight < b.highestColumnHeight ? -1 : 1`, as the relation
"the comparator returns -1 on (a, b)". -/
def sortComparatorPutsBefore (a b : Grid) : Bool :=
  a.widestRowWidth < b.widestRowWidth && a.highestColumnHeight < b.highestColumnHeight

/-- Pass 1 of `generateAllValidWaysToFitOnePresentInGrid`: all placements
inside the current bounding envelope, passed through `.sort` with the
source's comparator (modelled by a structural stable sort on the relation
"comparator returns -1"; the comparator is not a consistent ordering, so
JS leaves the order implementation-defined — all verdicts proved about
this pass are invariant under the choice of sort). -/
def firstPassPlacements (grid : Grid) (present : Present) : List Grid :=
  List.insertionSort (fun a b => sortComparatorPutsBefore a b = true)
    (generateAllValidWaysToFitPresentInGridForCoordinateRanges grid present
      0 grid.highestColumnHeight 0 grid.widestRowWidth)

/-- Pass 2: placements to the right of the envelope. -/
def secondPassPlacements (grid : Grid) (present : Present) : List Grid :=
  generateAllValidWaysToFitPresentInGridForCoordinateRanges grid present
    0 grid.highestColumnHeight grid.widestRowWidth ((grid.width : Int) - present.width + 1)

/-- Pass 3: placements below the envelope.  Note the source's row end bound
is `grid.height + present.height + 1` (a `+`, not the `-` the spec text
suggests). -/
def thirdPassPlacements (grid : Grid) (present : Present) : List Grid :=
  generateAllValidWaysToFitPresentInGridForCoordinateRanges grid present
    grid.highestColumnHeight ((grid.height : Int) + present.height + 1)
    0 ((grid.width : Int) - present.width + 1)

/-- Source `generateAllValidWaysToFitOnePresentInGrid`: the three passes
concatenated in order. -/
def generateAllValidWaysToFitOnePresentInGrid (grid : Grid) (present : Present) : List Grid :=
  firstPassPlacements grid present ++ secondPassPlacements grid present ++
    thirdPassPlacements grid present

/-- Stand-in for the `undefined` produced by the JS read `presents[i]` at an
out-of-range index; every theorem below carries the well-formedness
hypothesis (`presentsToFit.length = presents.length`) that keeps the source
from performing such a read. -/
def outOfRangePresent : Present := { width := 0, height := 0, coveredArea := 0, shapeVariations := [] }

/-- Replacing one entry of a list of naturals by a strictly smaller value
strictly decreases the sum (termination measure of the search). -/
theorem sumSetLt : ∀ {l : List Nat} {i : Nat}, i < l.length → ∀ {v : Nat},
    v < l.getD i 0 → (l.set i v).sum < l.sum
  | [], i, h, _, _ => absurd h (by simp)
  | x :: xs, 0, _, v, hv => by
      simp only [List.set, List.sum_cons, List.getD_cons_zero] at *
      omega
  | x :: xs, i + 1, h, v, hv => by
      simp only [List.set, List.sum_cons, List.getD_cons_succ] at *
      have := sumSetLt (l := xs) (i := i) (by simpa using h) hv
      omega

/-- Source `generateAllValidWaysToFitPresentsInGrid`: pick the lowest-indexed
present type with remaining count > 0 (`findIndex`), decrement it on a
copy, and recurse through every single-present placement. -/
def generateAllValidWaysToFitPresentsInGrid (grid : Grid) (presents : List Present)
    (presentsToFit : List Nat) : List Grid :=
  match h : presentsToFit.findIdx? (fun presentCount => 0 < presentCount) with
  | none => [grid]
  | some i =>
      let remainingPresentsToFit := presentsToFit.set i (presentsToFit.getD i 0 - 1)
      (generateAllValidWaysToFitOnePresentInGrid grid
          (presents.getD i outOfRangePresent)).flatMap
        fun newGrid =>
          generateAllValidWaysToFitPresentsInGrid newGrid presents remainingPresentsToFit
termination_by presentsToFit.sum
decreasing_by
  simp only [List.findIdx?_eq_some_iff_findIdx_eq] at h
  obtain ⟨hlt, hidx⟩ := h
  subst hidx
  have hp := @List.findIdx_getElem _ (fun presentCount => decide (0 < presentCount))
    presentsToFit hlt
  simp only [decide_eq_true_eq] at hp
  have hpos : 0 < presentsToFit.getD
      (presentsToFit.findIdx (fun presentCount => decide (0 < presentCount))) 0 := by
    rw [List.getD_eq_getElem _ _ hlt]; exact hp
  exact sumSetLt hlt (Nat.sub_lt hpos Nat.one_pos)

/-- Source `presentsToFit.map((presentCount, i) => presents[i].coveredArea *
presentCount).reduce((a, b) => a + b, 0)`, written with an explicit running
index. -/
def totalCoveredAreaOf (presents : List Present) : List Nat → Nat → Nat
  | [], _ => 0
  | presentCount :: rest, i =>
      (presents.getD i outOfRangePresent).coveredArea * presentCount +
        totalCoveredAreaOf presents rest (i + 1)

/-- The `largestPresentWidth` accumulator loop of `canPresentsFitInRegion`. -/
def largestPresentWidth (presents : List Present) : Nat :=
  presents.foldl (fun acc p => if acc < p.width then p.width else acc) 0

/-- The `largestPresentHeight` accumulator loop of `canPresentsFitInRegion`. -/
def largestPresentHeight (presents : List Present) : Nat :=
  presents.foldl (fun acc p => if acc < p.height then p.height else acc) 0

/-- Source `canPresentsFitInRegion(region, presents)` (console output dropped).
`Math.floor(a / b)` on the non-negative numbers that occur here is `Nat`
division; a division by zero (possible in JS only for a present list whose
every width or height is 0, which no parsed input produces) is outside the
data model, and the claims about this function carry hypotheses keeping the
divisors positive or the quotient branch irrelevant. -/
def canPresentsFitInRegion (region : TreeRegion) (presents : List Present) : Bool :=
  let totalCoveredArea := totalCoveredAreaOf presents region.presentsToFit 0
  let regionArea := region.width * region.height
  if regionArea < totalCoveredArea then false
  else
    let presentCount := region.presentsToFit.sum
    let estimatedMaximumPresentCount :=
      (region.width / largestPresentWidth presents) *
        (region.height / largestPresentHeight presents)
    if presentCount ≤ estimatedMaximumPresentCount then true
    else
      !(generateAllValidWaysToFitPresentsInGrid
          (buildEmptyRegionGrid region.height region.width) presents
          region.presentsToFit).isEmpty

/-- Source `rotateShape90DegreesClockwise(originalShape)`: row `col` of the result
collects `originalShape[rowIndex][col]` for `rowIndex` descending, i.e. the
`col`-th entry of each row of the reversed shape. -/
def rotateShape90DegreesClockwise (originalShape : Shape) : Shape :=
  (List.range (shapeWidth originalShape)).map fun col =>
    originalShape.reverse.map fun r => r.getD col false

/-- Source `flipShapeVertically(originalShape)`:
`Array.from(originalShape, (_, i) => [...originalShape[length - 1 - i]])`,
i.e. the rows in reverse order (row copies are immaterial for values). -/
def flipShapeVertically (originalShape : Shape) : Shape := originalShape.reverse

/-- Source `String(true)` / `String(false)`, as used by `Array.prototype.join('')`
on a row of booleans. -/
def boolToChars (b : Bool) : List Char :=
  if b then ['t', 'r', 'u', 'e'] else ['f', 'a', 'l', 's', 'e']

/-- Source `row.join('')` for a boolean row. -/
def rowJoin (r : List Bool) : List Char := r.flatMap boolToChars

/-- Source `areShapesIdentical(shape1, shape2)`: equal row counts and equal
`join('')` strings row by row. -/
def areShapesIdentical (shape1 shape2 : Shape) : Bool :=
  shape1.length == shape2.length &&
    (List.zip shape1 shape2).all fun p => rowJoin p.1 == rowJoin p.2

/-- The dedup step of `computeShapeVariations`: push `shape` only if no
already-accepted variant is identical to it. -/
def addShapeIfNew (shapes : List Shape) (shape : Shape) : List Shape :=
  if shapes.all fun existingShape => !areShapesIdentical existingShape shape then
    shapes ++ [shape]
  else shapes

/-- One iteration of the outer loop of `computeShapeVariations`: push
`shape` (if new), then its three successive clockwise rotations (each if
new) — the `for (let i = 0; i < 3; i++)` loop unrolled, with
`rotatedShape` accumulating the repeated rotations. -/
def rotationSweep (shapes : List Shape) (shape : Shape) : List Shape :=
  addShapeIfNew
    (addShapeIfNew
      (addShapeIfNew (addShapeIfNew shapes shape) (rotateShape90DegreesClockwise shape))
      (rotateShape90DegreesClockwise (rotateShape90DegreesClockwise shape)))
    (rotateShape90DegreesClockwise
      (rotateShape90DegreesClockwise (rotateShape90DegreesClockwise shape)))

/-- Source `computeShapeVariations(originalShape)`: `shapesToRotate` is the
original plus, when different, the vertically flipped shape; the outer
loop is a fold of `rotationSweep` starting from the empty `shapes`. -/
def computeShapeVariations (originalShape : Shape) : List Shape :=
  (if areShapesIdentical originalShape (flipShapeVertically originalShape) then
      [originalShape]
    else [originalShape, flipShapeVertically originalShape]).foldl rotationSweep []

/-- Source `line.split('').map((c) => c === '#')`. -/
def shapeRowOfLine (l : String) : List Bool := l.toList.map fun c => c == '#'

/-- The inner loop of `parseInput` that collects shape lines until a blank
line or the end of input, returning the parsed rows and the remaining
lines (the terminating blank line, when present, is consumed). -/
def takeShape : List String → Shape × List String
  | [] => ([], [])
  | l :: rest =>
      if l = "" then ([], rest)
      else (shapeRowOfLine l :: (takeShape rest).1, (takeShape rest).2)

/-- Source `takeShape` only ever returns a suffix of its input as the remaining
lines (termination measure of the line loop). -/
theorem takeShapeRestLe : ∀ ls : List String, (takeShape ls).2.length ≤ ls.length
  | [] => Nat.le_refl _
  | l :: rest => by
      simp only [takeShape]
      split
      · exact Nat.le_succ _
      · exact Nat.le_succ_of_le (takeShapeRestLe rest)

/-- The test `/^\d+:$/.test(line)`: one or more digits followed by `:`. -/
def isPresentHeaderLine (s : String) : Bool :=
  let cs := s.toList
  !cs.dropLast.isEmpty && cs.dropLast.all Char.isDigit && cs.getLast? == some ':'

/-- JS `Number(s)` on the strings this parser feeds it.  Inputs outside the
data model (for which `Number` gives `NaN`, e.g. a missing field read as
`undefined`) are mapped to 0; no claim depends on those. -/
def numberOfString (s : String) : Nat := s.toNat?.getD 0

/-- The tree-region branch of `parseInput`:
`const [dimensions, presentsToFit] = line.split(': ')` followed by the two
`split`/`map(Number)` steps.  When the line has no `': '` separator,
`presentsToFit` is `undefined` and `presentsToFit.split(' ')` throws, which
is modelled as `Except.error`. -/
def parseRegionLine (line : String) : Except String TreeRegion :=
  match line.splitOn ": " with
  | dimensions :: presentsToFit :: _ =>
      let dims := dimensions.splitOn "x"
      .ok { width := numberOfString (dims.getD 0 "")
            height := numberOfString (dims.getD 1 "")
            presentsToFit := (presentsToFit.splitOn " ").map numberOfString }
  | _ => .error "TypeError: cannot read split of undefined"

/-- The line loop of `parseInput` over the (finite) sequence of input
lines.  A header line starts a shape block; any other line is parsed as a
tree region.  `shape[0].length` on an empty block (header immediately
followed by a blank line or the end of input) throws in JS, modelled as
`Except.error`. -/
def parseInputLines : List String → Except String (List Present × List TreeRegion)
  | [] => .ok ([], [])
  | line :: rest =>
      if isPresentHeaderLine line then
        if (takeShape rest).1.isEmpty then .error "TypeError: cannot read length of undefined"
        else
          match parseInputLines (takeShape rest).2 with
          | .error e => .error e
          | .ok (presents, treeRegions) =>
              .ok ({ width := shapeWidth (takeShape rest).1
                     height := (takeShape rest).1.length
                     coveredArea := shapeCoveredArea (takeShape rest).1
                     shapeVariations := computeShapeVariations (takeShape rest).1 } :: presents,
                treeRegions)
      else
        match parseRegionLine line, parseInputLines rest with
        | .error e, _ => .error e
        | .ok _, .error e => .error e
        | .ok r, .ok (presents, treeRegions) => .ok (presents, r :: treeRegions)
termination_by lines => lines.length
decreasing_by
  · exact Nat.lt_succ_of_le (takeShapeRestLe rest)
  · exact Nat.lt_succ_self _

/-- Source `parseInput` over the whole list of input lines. -/
def parseInput (lines : List String) : Except String (List Present × List TreeRegion) :=
  parseInputLines lines

/-! ## Structural identity of shapes

`areShapesIdentical` compares rows by their `join('')` strings.  Since
`String(true) = "true"` and `String(false) = "false"` start with different
characters, the joined string determines the boolean row uniquely, so the
comparison coincides with structural equality of the matrices. -/

theorem rowJoin_eq_iff : ∀ (r1 r2 : List Bool), rowJoin r1 = rowJoin r2 ↔ r1 = r2
  | [], [] => by simp
  | [], b :: t => by cases b <;> simp [rowJoin, boolToChars]
  | b :: t, [] => by cases b <;> simp [rowJoin, boolToChars]
  | b1 :: t1, b2 :: t2 => by
      have ih := rowJoin_eq_iff t1 t2
      simp only [rowJoin] at ih
      cases b1 <;> cases b2 <;> simp [rowJoin, boolToChars, ih]

theorem areShapesIdentical_iff : ∀ (s1 s2 : Shape), areShapesIdentical s1 s2 = true ↔ s1 = s2
  | [], [] => by simp [areShapesIdentical]
  | [], r :: t => by simp [areShapesIdentical]
  | r :: t, [] => by simp [areShapesIdentical]
  | r1 :: t1, r2 :: t2 => by
      have ih := areShapesIdentical_iff t1 t2
      simp only [areShapesIdentical, List.zip_cons_cons, List.all_cons, List.length_cons,
        Bool.and_eq_true, beq_iff_eq, Nat.add_right_cancel_iff, List.cons.injEq,
        rowJoin_eq_iff] at ih ⊢
      constructor
      · rintro ⟨hlen, hr, hrest⟩
        exact ⟨hr, ih.mp ⟨hlen, hrest⟩⟩
      · rintro ⟨hr, ht⟩
        obtain ⟨hlen, hrest⟩ := ih.mpr ht
        exact ⟨hlen, hr, hrest⟩

/-! ## Geometry of rotation and flip -/

/-- The shapes the data model admits: a non-empty rectangular boolean
matrix with at least one column (exactly the shapes `parseInput` can
build, on which the JS canonicalizer runs without out-of-range reads). -/
def NiceShape (s : Shape) : Prop :=
  1 ≤ s.length ∧ 1 ≤ shapeWidth s ∧ ∀ r ∈ s, r.length = shapeWidth s

instance (s : Shape) : Decidable (NiceShape s) :=
  inferInstanceAs (Decidable (_ ∧ _ ∧ _))

theorem shapeCoveredArea_eq_sum (s : Shape) :
    shapeCoveredArea s = (s.map fun r => r.count true).sum := by
  simp [shapeCoveredArea, List.count_flatten]

theorem listSumMapAdd {α : Type} (l : List α) (f g : α → Nat) :
    (l.map fun x => f x + g x).sum = (l.map f).sum + (l.map g).sum := by
  induction l with
  | nil => rfl
  | cons x t ih => simp [ih]; omega

theorem sumIndicatorGetD : ∀ r : List Bool,
    ((List.range r.length).map fun j => if r.getD j false then 1 else 0).sum = r.count true
  | [] => rfl
  | b :: t => by
      rw [List.length_cons, List.range_succ_eq_map, List.map_cons, List.map_map]
      simp only [List.sum_cons, List.getD_cons_zero]
      have : ((List.range t.length).map
          ((fun j => if (b :: t).getD j false then 1 else 0) ∘ Nat.succ)).sum
          = ((List.range t.length).map fun j => if t.getD j false then 1 else 0).sum := by
        congr 1
      rw [this, sumIndicatorGetD t, List.count_cons]
      cases b <;> simp [Nat.add_comm]

theorem sumColCount {w : Nat} : ∀ s : Shape, (∀ r ∈ s, r.length = w) →
    ((List.range w).map fun col => (s.map fun r => r.getD col false).count true).sum
      = (s.map fun r => r.count true).sum
  | [], _ => by simp
  | r :: t, h => by
      have hr : r.length = w := h r (by simp)
      have ht : ∀ x ∈ t, x.length = w := fun x hx => h x (by simp [hx])
      have ih := sumColCount t ht
      have hind := sumIndicatorGetD r
      rw [hr] at hind
      simp only [List.map_cons, List.count_cons, List.sum_cons, beq_iff_eq]
      have key : ∀ L : List Nat,
          (L.map fun col => (t.map fun x => x.getD col false).count true +
            if r.getD col false = true then 1 else 0).sum
          = (L.map fun col => (t.map fun x => x.getD col false).count true).sum +
            (L.map fun col => if r.getD col false = true then 1 else 0).sum := by
        intro L
        induction L with
        | nil => rfl
        | cons a l ihl =>
            simp only [List.map_cons, List.sum_cons, ihl]
            omega
      rw [key, ih]
      have hind2 : ((List.range w).map fun col => if r.getD col false = true then 1 else 0).sum
          = r.count true := hind
      rw [hind2]
      omega

theorem rotate_length (s : Shape) :
    (rotateShape90DegreesClockwise s).length = shapeWidth s := by
  simp [rotateShape90DegreesClockwise]

theorem rotate_row_length (s : Shape) :
    ∀ r ∈ rotateShape90DegreesClockwise s, r.length = s.length := by
  intro r hr
  simp only [rotateShape90DegreesClockwise, List.mem_map] at hr
  obtain ⟨col, _, rfl⟩ := hr
  simp

theorem rotate_shapeWidth (s : Shape) (hw : 1 ≤ shapeWidth s) :
    shapeWidth (rotateShape90DegreesClockwise s) = s.length := by
  obtain ⟨n, hn⟩ : ∃ n, shapeWidth s = n + 1 :=
    ⟨shapeWidth s - 1, (Nat.succ_pred_eq_of_pos hw).symm⟩
  simp only [rotateShape90DegreesClockwise]
  rw [hn, List.range_succ_eq_map, List.map_cons]
  simp [shapeWidth]

theorem shapeCoveredArea_rotate (s : Shape) (h : ∀ r ∈ s, r.length = shapeWidth s) :
    shapeCoveredArea (rotateShape90DegreesClockwise s) = shapeCoveredArea s := by
  rw [shapeCoveredArea_eq_sum, shapeCoveredArea_eq_sum, rotateShape90DegreesClockwise,
    List.map_map]
  have hfun : ((fun r => r.count true) ∘ fun col => s.reverse.map fun r => r.getD col false)
      = fun col => (s.map fun r => r.getD col false).count true := by
    funext col
    simp only [Function.comp]
    rw [List.map_reverse, List.count_reverse]
  rw [hfun]
  exact sumColCount s h

theorem shapeCoveredArea_flip (s : Shape) :
    shapeCoveredArea (flipShapeVertically s) = shapeCoveredArea s := by
  rw [shapeCoveredArea_eq_sum, shapeCoveredArea_eq_sum, flipShapeVertically,
    List.map_reverse, List.sum_reverse]

theorem rotate_nice (s : Shape) (h : NiceShape s) :
    NiceShape (rotateShape90DegreesClockwise s) ∧
      shapeCoveredArea (rotateShape90DegreesClockwise s) = shapeCoveredArea s := by
  obtain ⟨hh, hw, hrect⟩ := h
  refine ⟨⟨?_, ?_, ?_⟩, shapeCoveredArea_rotate s hrect⟩
  · rw [rotate_length]; exact hw
  · rw [rotate_shapeWidth s hw]; exact hh
  · intro r hr
    rw [rotate_shapeWidth s hw]
    exact rotate_row_length s r hr

theorem flip_nice (s : Shape) (h : NiceShape s) :
    NiceShape (flipShapeVertically s) ∧
      shapeCoveredArea (flipShapeVertically s) = shapeCoveredArea s := by
  obtain ⟨hh, hw, hrect⟩ := h
  have hne : s.reverse ≠ [] := by
    simp only [ne_eq, List.reverse_eq_nil_iff]
    intro hnil
    rw [hnil] at hh
    exact absurd hh (by simp)
  have hwidth : shapeWidth (flipShapeVertically s) = shapeWidth s := by
    rw [flipShapeVertically, shapeWidth]
    rcases hrev : s.reverse with _ | ⟨r, t⟩
    · exact absurd hrev hne
    · have hr : r ∈ s := by
        rw [← List.mem_reverse, hrev]
        simp
      simpa using hrect r hr
  refine ⟨⟨?_, ?_, ?_⟩, shapeCoveredArea_flip s⟩
  · simpa [flipShapeVertically] using hh
  · rw [hwidth]
    exact hw
  · intro r hr
    rw [hwidth]
    exact hrect r (List.mem_reverse.mp hr)

/-! ## Structure of `computeShapeVariations` -/

theorem addShapeIfNew_append (l : List Shape) (s : Shape) :
    ∃ t, addShapeIfNew l s = l ++ t := by
  unfold addShapeIfNew
  split
  · exact ⟨[s], rfl⟩
  · exact ⟨[], by simp⟩

theorem addShapeIfNew_length_le (l : List Shape) (s : Shape) :
    (addShapeIfNew l s).length ≤ l.length + 1 := by
  unfold addShapeIfNew
  split
  · simp
  · simp

theorem mem_addShapeIfNew {l : List Shape} {s v : Shape} (h : v ∈ addShapeIfNew l s) :
    v ∈ l ∨ v = s := by
  unfold addShapeIfNew at h
  split at h
  · rcases List.mem_append.mp h with hv | hv
    · exact Or.inl hv
    · exact Or.inr (by simpa using hv)
  · exact Or.inl h

theorem addShapeIfNew_pairwise {l : List Shape} {s : Shape}
    (h : l.Pairwise fun a b => a ≠ b) :
    (addShapeIfNew l s).Pairwise fun a b => a ≠ b := by
  unfold addShapeIfNew
  split
  · rename_i hall
    rw [List.pairwise_append]
    refine ⟨h, by simp, ?_⟩
    intro a ha b hb
    rw [List.mem_singleton] at hb
    subst hb
    have := List.all_eq_true.mp hall a ha
    simp only [Bool.not_eq_eq_eq_not, Bool.not_true] at this
    intro heq
    rw [heq] at this
    rw [(areShapesIdentical_iff b b).mpr rfl] at this
    exact absurd this (by simp)
  · exact h

theorem rotationSweep_append (l : List Shape) (s : Shape) :
    ∃ t, rotationSweep l s = l ++ t := by
  unfold rotationSweep
  obtain ⟨t0, h0⟩ := addShapeIfNew_append l s
  obtain ⟨t1, h1⟩ := addShapeIfNew_append (addShapeIfNew l s)
    (rotateShape90DegreesClockwise s)
  obtain ⟨t2, h2⟩ := addShapeIfNew_append
    (addShapeIfNew (addShapeIfNew l s) (rotateShape90DegreesClockwise s))
    (rotateShape90DegreesClockwise (rotateShape90DegreesClockwise s))
  obtain ⟨t3, h3⟩ := addShapeIfNew_append
    (addShapeIfNew (addShapeIfNew (addShapeIfNew l s) (rotateShape90DegreesClockwise s))
      (rotateShape90DegreesClockwise (rotateShape90DegreesClockwise s)))
    (rotateShape90DegreesClockwise
      (rotateShape90DegreesClockwise (rotateShape90DegreesClockwise s)))
  rw [h3, h2, h1, h0]
  exact ⟨t0 ++ t1 ++ t2 ++ t3, by simp⟩

theorem rotationSweep_length_le (l : List Shape) (s : Shape) :
    (rotationSweep l s).length ≤ l.length + 4 := by
  unfold rotationSweep
  have h0 := addShapeIfNew_length_le l s
  have h1 := addShapeIfNew_length_le (addShapeIfNew l s) (rotateShape90DegreesClockwise s)
  have h2 := addShapeIfNew_length_le
    (addShapeIfNew (addShapeIfNew l s) (rotateShape90DegreesClockwise s))
    (rotateShape90DegreesClockwise (rotateShape90DegreesClockwise s))
  have h3 := addShapeIfNew_length_le
    (addShapeIfNew (addShapeIfNew (addShapeIfNew l s) (rotateShape90DegreesClockwise s))
      (rotateShape90DegreesClockwise (rotateShape90DegreesClockwise s)))
    (rotateShape90DegreesClockwise
      (rotateShape90DegreesClockwise (rotateShape90DegreesClockwise s)))
  omega

theorem mem_rotationSweep {l : List Shape} {s v : Shape} (h : v ∈ rotationSweep l s) :
    v ∈ l ∨ v = s ∨ v = rotateShape90DegreesClockwise s ∨
      v = rotateShape90DegreesClockwise (rotateShape90DegreesClockwise s) ∨
      v = rotateShape90DegreesClockwise
        (rotateShape90DegreesClockwise (rotateShape90DegreesClockwise s)) := by
  unfold rotationSweep at h
  rcases mem_addShapeIfNew h with h | h
  · rcases mem_addShapeIfNew h with h | h
    · rcases mem_addShapeIfNew h with h | h
      · rcases mem_addShapeIfNew h with h | h
        · exact Or.inl h
        · exact Or.inr (Or.inl h)
      · exact Or.inr (Or.inr (Or.inl h))
    · exact Or.inr (Or.inr (Or.inr (Or.inl h)))
  · exact Or.inr (Or.inr (Or.inr (Or.inr h)))

theorem rotationSweep_pairwise {l : List Shape} {s : Shape}
    (h : l.Pairwise fun a b => a ≠ b) :
    (rotationSweep l s).Pairwise fun a b => a ≠ b := by
  unfold rotationSweep
  exact addShapeIfNew_pairwise (addShapeIfNew_pairwise
    (addShapeIfNew_pairwise (addShapeIfNew_pairwise h)))

theorem foldlSweep_append : ∀ (todo : List Shape) (l : List Shape),
    ∃ t, todo.foldl rotationSweep l = l ++ t
  | [], l => ⟨[], by simp⟩
  | s :: rest, l => by
      obtain ⟨t0, h0⟩ := rotationSweep_append l s
      obtain ⟨t1, h1⟩ := foldlSweep_append rest (rotationSweep l s)
      refine ⟨t0 ++ t1, ?_⟩
      rw [List.foldl_cons, h1, h0, List.append_assoc]

theorem foldlSweep_length : ∀ (todo : List Shape) (l : List Shape),
    (todo.foldl rotationSweep l).length ≤ l.length + 4 * todo.length
  | [], l => by simp
  | s :: rest, l => by
      have h1 := foldlSweep_length rest (rotationSweep l s)
      have h0 := rotationSweep_length_le l s
      simp only [List.foldl_cons, List.length_cons]
      omega

theorem foldlSweep_pairwise : ∀ (todo : List Shape) {l : List Shape},
    l.Pairwise (fun a b => a ≠ b) → (todo.foldl rotationSweep l).Pairwise fun a b => a ≠ b
  | [], _, h => h
  | s :: rest, l, h => by
      simp only [List.foldl_cons]
      exact foldlSweep_pairwise rest (rotationSweep_pairwise h)

theorem mem_foldlSweep : ∀ (todo : List Shape) {l : List Shape} {v : Shape},
    v ∈ todo.foldl rotationSweep l → v ∈ l ∨ ∃ s ∈ todo,
      v = s ∨ v = rotateShape90DegreesClockwise s ∨
        v = rotateShape90DegreesClockwise (rotateShape90DegreesClockwise s) ∨
        v = rotateShape90DegreesClockwise
          (rotateShape90DegreesClockwise (rotateShape90DegreesClockwise s))
  | [], _, _, h => Or.inl h
  | s :: rest, l, v, h => by
      simp only [List.foldl_cons] at h
      rcases mem_foldlSweep rest h with h | ⟨u, hu, hv⟩
      · rcases mem_rotationSweep h with h | h
        · exact Or.inl h
        · exact Or.inr ⟨s, by simp, h⟩
      · exact Or.inr ⟨u, by simp [hu], hv⟩

/-- The variant list always starts with the original shape (the very first
`addShapeIfNew` call runs on the empty accumulator and appends it). -/
theorem computeShapeVariations_cons (s : Shape) :
    ∃ t, computeShapeVariations s = s :: t := by
  have hfirst : addShapeIfNew [] s = [s] := by simp [addShapeIfNew]
  have hsweep : ∃ t, rotationSweep [] s = s :: t := by
    unfold rotationSweep
    rw [hfirst]
    obtain ⟨t1, h1⟩ := addShapeIfNew_append [s] (rotateShape90DegreesClockwise s)
    obtain ⟨t2, h2⟩ := addShapeIfNew_append
      (addShapeIfNew [s] (rotateShape90DegreesClockwise s))
      (rotateShape90DegreesClockwise (rotateShape90DegreesClockwise s))
    obtain ⟨t3, h3⟩ := addShapeIfNew_append
      (addShapeIfNew (addShapeIfNew [s] (rotateShape90DegreesClockwise s))
        (rotateShape90DegreesClockwise (rotateShape90DegreesClockwise s)))
      (rotateShape90DegreesClockwise
        (rotateShape90DegreesClockwise (rotateShape90DegreesClockwise s)))
    rw [h3, h2, h1]
    exact ⟨t1 ++ t2 ++ t3, by simp⟩
  obtain ⟨t, ht⟩ := hsweep
  unfold computeShapeVariations
  split
  · simp only [List.foldl_cons, List.foldl_nil]
    exact ⟨t, ht⟩
  · simp only [List.foldl_cons]
    obtain ⟨t2, ht2⟩ := foldlSweep_append [flipShapeVertically s] (rotationSweep [] s)
    simp only [List.foldl_cons, List.foldl_nil] at ht2
    rw [ht2, ht]
    exact ⟨t ++ t2, by simp⟩

theorem variant_area {b : Shape} (hb : NiceShape b) :
    ∀ v : Shape, (v = b ∨ v = rotateShape90DegreesClockwise b ∨
      v = rotateShape90DegreesClockwise (rotateShape90DegreesClockwise b) ∨
      v = rotateShape90DegreesClockwise
        (rotateShape90DegreesClockwise (rotateShape90DegreesClockwise b))) →
    shapeCoveredArea v = shapeCoveredArea b := by
  obtain ⟨h1, a1⟩ := rotate_nice b hb
  obtain ⟨h2, a2⟩ := rotate_nice _ h1
  obtain ⟨h3, a3⟩ := rotate_nice _ h2
  rintro v (rfl | rfl | rfl | rfl)
  · rfl
  · exact a1
  · exact a2.trans a1
  · exact a3.trans (a2.trans a1)

/-- C10: for every well-formed shape, `computeShapeVariations` returns a
non-empty list whose first element is the original shape itself (so a
present can always be placed in its original orientation, whose dimensions
are the `width`/`height` recorded on the `Present`). -/
theorem c10_first_variant_is_original (s : Shape) (h : NiceShape s) :
    computeShapeVariations s ≠ [] ∧ (computeShapeVariations s).head? = some s := by
  obtain ⟨t, ht⟩ := computeShapeVariations_cons s
  rw [ht]
  exact ⟨by simp, rfl⟩

/-- Witness for C10 at the vertical domino. -/
theorem c10_witness :
    computeShapeVariations [[true], [true]] ≠ [] ∧
      (computeShapeVariations [[true], [true]]).head? = some [[true], [true]] :=
  c10_first_variant_is_original [[true], [true]] (by decide)

/-- C4: for every non-empty rectangular boolean shape,
`computeShapeVariations` returns between 1 and 8 variants, pairwise
structurally distinct, and every variant has the same filled-cell count
as the original shape. -/
theorem c4_shape_variations (s : Shape) (h : NiceShape s) :
    1 ≤ (computeShapeVariations s).length ∧
    (computeShapeVariations s).length ≤ 8 ∧
    (computeShapeVariations s).Pairwise (fun a b => a ≠ b) ∧
    ∀ v ∈ computeShapeVariations s, shapeCoveredArea v = shapeCoveredArea s := by
  refine ⟨?_, ?_, ?_, ?_⟩
  · obtain ⟨t, ht⟩ := computeShapeVariations_cons s
    rw [ht]
    simp
  · unfold computeShapeVariations
    split
    · exact (foldlSweep_length [s] []).trans (by norm_num)
    · exact (foldlSweep_length [s, flipShapeVertically s] []).trans (by norm_num)
  · unfold computeShapeVariations
    split
    · exact foldlSweep_pairwise _ List.Pairwise.nil
    · exact foldlSweep_pairwise _ List.Pairwise.nil
  · intro v hv
    unfold computeShapeVariations at hv
    split at hv
    · rcases mem_foldlSweep _ hv with hnil | ⟨b, hb, hforms⟩
      · exact absurd hnil (List.not_mem_nil v)
      · have hbs : b = s := by simpa using hb
        subst hbs
        exact variant_area h v hforms
    · rcases mem_foldlSweep _ hv with hnil | ⟨b, hb, hforms⟩
      · exact absurd hnil (List.not_mem_nil v)
      · rcases (by simpa using hb : b = s ∨ b = flipShapeVertically s) with rfl | rfl
        · exact variant_area h v hforms
        · obtain ⟨hfn, hfa⟩ := flip_nice s h
          exact (variant_area hfn v hforms).trans hfa

/-- Witness for C4 at an L-tromino. -/
theorem c4_witness :
    1 ≤ (computeShapeVariations [[true, false], [true, true]]).length ∧
    (computeShapeVariations [[true, false], [true, true]]).length ≤ 8 ∧
    (computeShapeVariations [[true, false], [true, true]]).Pairwise (fun a b => a ≠ b) ∧
    ∀ v ∈ computeShapeVariations [[true, false], [true, true]],
      shapeCoveredArea v = shapeCoveredArea [[true, false], [true, true]] :=
  c4_shape_variations [[true, false], [true, true]] (by decide)

/-! ## Reading and writing grid cells -/

theorem getD_set_self {α : Type} {l : List α} {i : Nat} (h : i < l.length) (v d : α) :
    (l.set i v).getD i d = v := by
  rw [List.getD_eq_getElem?_getD, List.getElem?_set]
  simp [h]

theorem getD_set_other {α : Type} {l : List α} {i j : Nat} (hne : i ≠ j) (v d : α) :
    (l.set i v).getD j d = l.getD j d := by
  rw [List.getD_eq_getElem?_getD, List.getD_eq_getElem?_getD, List.getElem?_set]
  simp [hne]

theorem rowWrite_length : ∀ (srow row : List Bool) (c : Nat),
    (rowWrite row srow c).length = row.length
  | [], _, _ => rfl
  | b :: rest, row, c => by
      rw [rowWrite, rowWrite_length rest, List.length_set]

/-- Cell-level description of `rowWrite`: inside the written window the old
value is OR-ed with the shape bit, outside nothing changes. -/
theorem rowWrite_getD : ∀ (srow row : List Bool) (c : Nat),
    c + srow.length ≤ row.length → ∀ j : Nat,
    (rowWrite row srow c).getD j false =
      (row.getD j false ||
        if c ≤ j ∧ j < c + srow.length then srow.getD (j - c) false else false)
  | [], row, c, _, j => by
      rw [rowWrite]
      have hwin : ¬(c ≤ j ∧ j < c + ([] : List Bool).length) := by
        simp only [List.length_nil]
        omega
      rw [if_neg hwin]
      simp
  | b :: rest, row, c, hlen, j => by
      rw [rowWrite]
      have hc : c < row.length := by
        simp only [List.length_cons] at hlen
        omega
      have hlen2 : (c + 1) + rest.length ≤ (row.set c (row.getD c false || b)).length := by
        rw [List.length_set]
        simp only [List.length_cons] at hlen
        omega
      rw [rowWrite_getD rest _ (c + 1) hlen2 j]
      by_cases hj : j = c
      · subst hj
        rw [getD_set_self hc]
        have hwin2 : ¬(j + 1 ≤ j ∧ j < j + 1 + rest.length) := by omega
        have hwin : j ≤ j ∧ j < j + (b :: rest).length := by
          simp only [List.length_cons]
          omega
        rw [if_neg hwin2, if_pos hwin]
        simp
      · rw [getD_set_other (by omega : c ≠ j)]
        by_cases hj2 : c + 1 ≤ j ∧ j < c + 1 + rest.length
        · have hj3 : c ≤ j ∧ j < c + (b :: rest).length := by
            simp only [List.length_cons]
            omega
          obtain ⟨n, hn⟩ : ∃ n, j - c = n + 1 := ⟨j - c - 1, by omega⟩
          have hn2 : j - (c + 1) = n := by omega
          rw [if_pos hj2, if_pos hj3, hn, hn2, List.getD_cons_succ]
        · have hj3 : ¬(c ≤ j ∧ j < c + (b :: rest).length) := by
            simp only [List.length_cons]
            omega
          rw [if_neg hj2, if_neg hj3]

theorem writeShape_length : ∀ (s : Shape) (cells : List (List Bool)) (r c : Nat),
    (writeShape cells s r c).length = cells.length
  | [], _, _, _ => rfl
  | srow :: srest, cells, r, c => by
      rw [writeShape, writeShape_length srest, List.length_set]

theorem writeShape_row_length : ∀ (s : Shape) (cells : List (List Bool)) (r c : Nat) (i : Nat),
    ((writeShape cells s r c).getD i []).length = (cells.getD i []).length
  | [], _, _, _, _ => rfl
  | srow :: srest, cells, r, c, i => by
      rw [writeShape, writeShape_row_length srest]
      by_cases hir : r = i
      · subst hir
        by_cases hlt : r < cells.length
        · rw [getD_set_self hlt, rowWrite_length]
        · rw [List.set_eq_of_length_le (Nat.le_of_not_lt hlt)]
      · rw [getD_set_other hir]

/-- Cell-level description of `writeShape`: inside the placed window the
old occupancy is OR-ed with the shape bit, and nothing else changes. -/
theorem writeShape_cellGet : ∀ (s : Shape) (cells : List (List Bool)) (r c : Nat),
    r + s.length ≤ cells.length →
    (∀ i, i < s.length → c + (s.getD i []).length ≤ (cells.getD (r + i) []).length) →
    ∀ i j : Nat, cellGet (writeShape cells s r c) i j =
      (cellGet cells i j ||
        if r ≤ i ∧ i < r + s.length ∧ c ≤ j ∧ j < c + (s.getD (i - r) []).length then
          (s.getD (i - r) []).getD (j - c) false
        else false)
  | [], cells, r, c, _, _, i, j => by
      rw [writeShape]
      have hwin : ¬(r ≤ i ∧ i < r + ([] : Shape).length ∧ c ≤ j ∧
          j < c + (([] : Shape).getD (i - r) []).length) := by
        simp only [List.length_nil]
        omega
      rw [if_neg hwin]
      simp
  | srow :: srest, cells, r, c, hlen, hrows, i, j => by
      have hr : r < cells.length := by
        simp only [List.length_cons] at hlen
        omega
      have hrow0 : c + srow.length ≤ (cells.getD r []).length := by
        have := hrows 0 (by simp)
        simpa using this
      have hlen2 : (r + 1) + srest.length ≤
          (cells.set r (rowWrite (cells.getD r []) srow c)).length := by
        rw [List.length_set]
        simp only [List.length_cons] at hlen
        omega
      have hrows2 : ∀ k, k < srest.length →
          c + (srest.getD k []).length ≤
            ((cells.set r (rowWrite (cells.getD r []) srow c)).getD (r + 1 + k) []).length := by
        intro k hk
        rw [getD_set_other (by omega : r ≠ r + 1 + k)]
        have := hrows (k + 1) (by simpa using Nat.succ_lt_succ hk)
        simp only [List.getD_cons_succ] at this
        have harith : r + (k + 1) = r + 1 + k := by omega
        rw [harith] at this
        exact this
      rw [writeShape, writeShape_cellGet srest _ (r + 1) c hlen2 hrows2 i j]
      by_cases hir : i = r
      · subst hir
        have hbase : cellGet (cells.set i (rowWrite (cells.getD i []) srow c)) i j
            = ((cells.getD i []).getD j false ||
              if c ≤ j ∧ j < c + srow.length then srow.getD (j - c) false else false) := by
          unfold cellGet
          rw [getD_set_self hr, rowWrite_getD srow _ c hrow0 j]
        have hwin2 : ¬(i + 1 ≤ i ∧ i < i + 1 + srest.length ∧ c ≤ j ∧
            j < c + (srest.getD (i - (i + 1)) []).length) := by omega
        rw [if_neg hwin2, hbase]
        by_cases hcj : c ≤ j ∧ j < c + srow.length
        · have hcnd : i ≤ i ∧ i < i + (srow :: srest).length ∧ c ≤ j ∧
              j < c + ((srow :: srest).getD (i - i) []).length := by
            simp only [List.length_cons, Nat.sub_self, List.getD_cons_zero]
            exact ⟨Nat.le_refl i, by omega, hcj.1, hcj.2⟩
          rw [if_pos hcj, if_pos hcnd]
          simp only [Nat.sub_self, List.getD_cons_zero, Bool.or_false]
          rfl
        · have hcnd : ¬(i ≤ i ∧ i < i + (srow :: srest).length ∧ c ≤ j ∧
              j < c + ((srow :: srest).getD (i - i) []).length) := by
            simp only [List.length_cons, Nat.sub_self, List.getD_cons_zero]
            omega
          rw [if_neg hcj, if_neg hcnd]
          simp only [Bool.or_false]
          rfl
      · have hbase : cellGet (cells.set r (rowWrite (cells.getD r []) srow c)) i j
            = cellGet cells i j := by
          unfold cellGet
          rw [getD_set_other (Ne.symm hir)]
        rw [hbase]
        have hiff : (r + 1 ≤ i ∧ i < r + 1 + srest.length ∧ c ≤ j ∧
              j < c + (srest.getD (i - (r + 1)) []).length)
            ↔ (r ≤ i ∧ i < r + (srow :: srest).length ∧ c ≤ j ∧
              j < c + ((srow :: srest).getD (i - r) []).length) := by
          constructor
          · rintro ⟨h1, h2, h3, h4⟩
            obtain ⟨n, hn⟩ : ∃ n, i - (r + 1) = n := ⟨_, rfl⟩
            have hn2 : i - r = n + 1 := by omega
            refine ⟨by omega, by simp only [List.length_cons]; omega, h3, ?_⟩
            rw [hn2, List.getD_cons_succ, ← hn]
            exact h4
          · rintro ⟨h1, h2, h3, h4⟩
            have h1s : r + 1 ≤ i := by
              rcases Nat.lt_or_ge r i with hlt | hge
              · omega
              · exact absurd (Nat.le_antisymm hge h1) hir
            obtain ⟨n, hn⟩ : ∃ n, i - (r + 1) = n := ⟨_, rfl⟩
            have hn2 : i - r = n + 1 := by omega
            rw [hn2, List.getD_cons_succ] at h4
            refine ⟨h1s, by simp only [List.length_cons] at h2; omega, h3, ?_⟩
            rw [hn]
            exact h4
        by_cases hcnd : r + 1 ≤ i ∧ i < r + 1 + srest.length ∧ c ≤ j ∧
            j < c + (srest.getD (i - (r + 1)) []).length
        · have hval : (srow :: srest).getD (i - r) [] = srest.getD (i - (r + 1)) [] := by
            have hn2 : i - r = (i - (r + 1)) + 1 := by omega
            rw [hn2, List.getD_cons_succ]
          rw [if_pos hcnd, if_pos (hiff.mp hcnd), hval]
        · rw [if_neg hcnd, if_neg (fun hcon => hcnd (hiff.mpr hcon))]

/-! ## Characterizing the fit check -/

theorem rowFits_iff : ∀ (srow gridRow : List Bool) (c : Nat),
    rowFits gridRow srow c = true ↔
      ∀ j, j < srow.length →
        ¬(gridRow.getD (c + j) false = true ∧ srow.getD j false = true)
  | [], gridRow, c => by simp [rowFits]
  | b :: rest, gridRow, c => by
      rw [rowFits]
      simp only [Bool.and_eq_true, Bool.not_eq_eq_eq_not, Bool.not_true,
        Bool.and_eq_false_imp] at *
      constructor
      · rintro ⟨hhead, htail⟩ j hj
        match j with
        | 0 =>
            simp only [Nat.add_zero, List.getD_cons_zero]
            rintro ⟨hg, hb⟩
            rw [hhead hg] at hb
            exact absurd hb (by simp)
        | Nat.succ k =>
            have hk : k < rest.length := by
              simp only [List.length_cons] at hj
              omega
            have := (rowFits_iff rest gridRow (c + 1)).mp htail k hk
            have harith : c + (k + 1) = c + 1 + k := by omega
            rw [harith]
            simpa using this
      · intro hall
        refine ⟨?_, (rowFits_iff rest gridRow (c + 1)).mpr ?_⟩
        · intro hg
          have := hall 0 (by simp)
          simp only [Nat.add_zero, List.getD_cons_zero] at this
          cases hb : b
          · rfl
          · exact absurd ⟨hg, hb⟩ this
        · intro k hk
          have := hall (k + 1) (by simpa using Nat.succ_lt_succ hk)
          have harith : c + (k + 1) = c + 1 + k := by omega
          rw [harith] at this
          simpa using this

theorem shapeFits_iff : ∀ (s : Shape) (cells : List (List Bool)) (r c : Nat),
    shapeFits cells s r c = true ↔
      ∀ i, i < s.length → ∀ j, j < (s.getD i []).length →
        ¬(cellGet cells (r + i) (c + j) = true ∧ (s.getD i []).getD j false = true)
  | [], cells, r, c => by simp [shapeFits]
  | srow :: srest, cells, r, c => by
      rw [shapeFits]
      simp only [Bool.and_eq_true]
      constructor
      · rintro ⟨hhead, htail⟩ i hi j hj
        match i with
        | 0 =>
            simp only [List.getD_cons_zero] at hj ⊢
            have := (rowFits_iff srow (cells.getD r []) c).mp hhead j hj
            simpa [cellGet] using this
        | Nat.succ k =>
            have hk : k < srest.length := by
              simp only [List.length_cons] at hi
              omega
            simp only [List.getD_cons_succ] at hj ⊢
            have := (shapeFits_iff srest cells (r + 1) c).mp htail k hk j hj
            have harith : r + (k + 1) = r + 1 + k := by omega
            rw [harith]
            exact this
      · intro hall
        refine ⟨(rowFits_iff srow (cells.getD r []) c).mpr ?_,
          (shapeFits_iff srest cells (r + 1) c).mpr ?_⟩
        · intro j hj
          have := hall 0 (by simp) j (by simpa using hj)
          simpa [cellGet] using this
        · intro k hk j hj
          have := hall (k + 1) (by simpa using Nat.succ_lt_succ hk) j
            (by simpa using hj)
          have harith : r + (k + 1) = r + 1 + k := by omega
          rw [harith] at this
          simpa using this

theorem canShapeFit_iff (g : Grid) (s : Shape) (row col : Nat) :
    canShapeFitOnGridAtCoordinates g s row col = true ↔
      row + s.length ≤ g.height ∧ col + shapeWidth s ≤ g.width ∧
        shapeFits g.cells s row col = true := by
  unfold canShapeFitOnGridAtCoordinates
  split
  · rename_i hcond
    simp only [Bool.or_eq_true, decide_eq_true_eq] at hcond
    constructor
    · intro h
      exact absurd h (by simp)
    · rintro ⟨h1, h2, _⟩
      omega
  · rename_i hcond
    simp only [Bool.or_eq_true, decide_eq_true_eq, not_or, Nat.not_lt] at hcond
    exact ⟨fun h => ⟨hcond.1, hcond.2, h⟩, fun h => h.2.2⟩

/-! ## Well-formed grids and placement (claim C7) -/

/-- The representation invariant every grid the source ever builds
satisfies: the `cells` matrix has exactly `height` rows of exactly
`width` cells. -/
def GridWellFormed (g : Grid) : Prop :=
  g.cells.length = g.height ∧ ∀ row ∈ g.cells, row.length = g.width

instance (g : Grid) : Decidable (GridWellFormed g) :=
  inferInstanceAs (Decidable (_ ∧ _))

theorem getD_mem {α : Type} {l : List α} {i : Nat} (h : i < l.length) (d : α) :
    l.getD i d ∈ l := by
  rw [List.getD_eq_getElem _ _ h]
  exact List.getElem_mem h

theorem wf_row_length {g : Grid} (hg : GridWellFormed g) {k : Nat} (hk : k < g.cells.length) :
    (g.cells.getD k []).length = g.width :=
  hg.2 _ (getD_mem hk [])

/-- C7: for a well-formed grid and an in-bounds placement of a rectangular
shape, `placeShapeOnGridAtCoordinates` returns a grid whose occupancy is
the input occupancy with the shape's filled cells OR-ed in at the offset,
whose envelope fields are the `max` of the old values and the placed
extent, and whose `width`/`height` are unchanged.  The input grid itself
is untouched: the embedding's `placeShapeOnGridAtCoordinates` is a pure
function building a fresh record over a fresh `cells` matrix, exactly as
the source copies every row (`Array.from(grid.cells, (gridRow) =>
[...gridRow])`) before writing. -/
theorem c7_place_characterization (grid : Grid) (shape : Shape) (row col : Nat)
    (hg : GridWellFormed grid)
    (hrect : ∀ r ∈ shape, r.length = shapeWidth shape)
    (hrow : row + shape.length ≤ grid.height)
    (hcol : col + shapeWidth shape ≤ grid.width) :
    (placeShapeOnGridAtCoordinates grid shape row col).width = grid.width ∧
    (placeShapeOnGridAtCoordinates grid shape row col).height = grid.height ∧
    (placeShapeOnGridAtCoordinates grid shape row col).widestRowWidth
      = max grid.widestRowWidth (col + shapeWidth shape) ∧
    (placeShapeOnGridAtCoordinates grid shape row col).highestColumnHeight
      = max grid.highestColumnHeight (row + shape.length) ∧
    GridWellFormed (placeShapeOnGridAtCoordinates grid shape row col) ∧
    ∀ i j : Nat, cellGet (placeShapeOnGridAtCoordinates grid shape row col).cells i j =
      (cellGet grid.cells i j ||
        if row ≤ i ∧ i < row + shape.length ∧ col ≤ j ∧
            j < col + (shape.getD (i - row) []).length then
          (shape.getD (i - row) []).getD (j - col) false
        else false) := by
  have hlen : row + shape.length ≤ grid.cells.length := by
    rw [hg.1]
    exact hrow
  have hrows : ∀ i, i < shape.length →
      col + (shape.getD i []).length ≤ (grid.cells.getD (row + i) []).length := by
    intro i hi
    rw [hrect _ (getD_mem hi []), wf_row_length hg (by omega)]
    exact hcol
  refine ⟨rfl, rfl, rfl, rfl, ⟨?_, ?_⟩, ?_⟩
  · simp only [placeShapeOnGridAtCoordinates]
    rw [writeShape_length]
    exact hg.1
  · intro r hr
    simp only [placeShapeOnGridAtCoordinates] at hr
    obtain ⟨k, hk, rfl⟩ := List.mem_iff_getElem.mp hr
    have hk2 : k < grid.cells.length := by
      rw [writeShape_length] at hk
      exact hk
    have : (writeShape grid.cells shape row col).getD k [] = (writeShape grid.cells shape row col).get ⟨k, hk⟩ := by
      rw [List.getD_eq_getElem _ _ hk]
      simp
    calc ((writeShape grid.cells shape row col).get ⟨k, hk⟩).length
        = ((writeShape grid.cells shape row col).getD k []).length := by rw [this]
      _ = (grid.cells.getD k []).length := writeShape_row_length shape grid.cells row col k
      _ = grid.width := wf_row_length hg hk2
  · intro i j
    exact writeShape_cellGet shape grid.cells row col hlen hrows i j

/-- Witness for C7: placing a 1-cell shape at (1, 1) on an empty 2-by-2
grid. -/
theorem c7_witness :
    (placeShapeOnGridAtCoordinates (buildEmptyRegionGrid 2 2) [[true]] 1 1).width
        = (buildEmptyRegionGrid 2 2).width ∧
    (placeShapeOnGridAtCoordinates (buildEmptyRegionGrid 2 2) [[true]] 1 1).height
        = (buildEmptyRegionGrid 2 2).height ∧
    (placeShapeOnGridAtCoordinates (buildEmptyRegionGrid 2 2) [[true]] 1 1).widestRowWidth
      = max (buildEmptyRegionGrid 2 2).widestRowWidth (1 + shapeWidth [[true]]) ∧
    (placeShapeOnGridAtCoordinates (buildEmptyRegionGrid 2 2) [[true]] 1 1).highestColumnHeight
      = max (buildEmptyRegionGrid 2 2).highestColumnHeight (1 + ([[true]] : Shape).length) ∧
    GridWellFormed (placeShapeOnGridAtCoordinates (buildEmptyRegionGrid 2 2) [[true]] 1 1) ∧
    ∀ i j : Nat,
      cellGet (placeShapeOnGridAtCoordinates (buildEmptyRegionGrid 2 2) [[true]] 1 1).cells i j =
      (cellGet (buildEmptyRegionGrid 2 2).cells i j ||
        if 1 ≤ i ∧ i < 1 + ([[true]] : Shape).length ∧ 1 ≤ j ∧
            j < 1 + (([[true]] : Shape).getD (i - 1) []).length then
          (([[true]] : Shape).getD (i - 1) []).getD (j - 1) false
        else false) :=
  c7_place_characterization (buildEmptyRegionGrid 2 2) [[true]] 1 1
    (by decide) (by decide) (by decide) (by decide)

/-! ## Boundary behaviour of the fit check (claim C3) -/

theorem rowFitsJS_isSome : ∀ (srow : List Bool) (cells : List (List Bool)) (r c : Int),
    0 ≤ r → r < (cells.length : Int) → (rowFitsJS cells srow r c).isSome = true
  | [], _, _, _, _, _ => rfl
  | b :: rest, cells, r, c, h0, hlt => by
      rw [rowFitsJS]
      have hcell : getCellJS cells r c = some (if 0 ≤ c ∧ c < ((cells.getD r.toNat []).length : Int)
          then (cells.getD r.toNat []).getD c.toNat false else false) := by
        unfold getCellJS
        rw [if_pos ⟨h0, hlt⟩]
      obtain ⟨v, hv⟩ : ∃ v, getCellJS cells r c = some v := ⟨_, hcell⟩
      rw [hv, Option.some_bind]
      split
      · rfl
      · exact rowFitsJS_isSome rest cells r (c + 1) h0 hlt

theorem shapeFitsJS_isSome : ∀ (s : Shape) (cells : List (List Bool)) (r c : Int),
    0 ≤ r → r + s.length ≤ (cells.length : Int) → (shapeFitsJS cells s r c).isSome = true
  | [], _, _, _, _, _ => rfl
  | srow :: srest, cells, r, c, h0, hlen => by
      rw [shapeFitsJS]
      have hlt : r < (cells.length : Int) := by
        simp only [List.length_cons] at hlen
        omega
      have hrow := rowFitsJS_isSome srow cells r c h0 hlt
      match hr : rowFitsJS cells srow r c with
      | none => rw [hr] at hrow; exact absurd hrow (by simp)
      | some false => rfl
      | some true =>
          refine shapeFitsJS_isSome srest cells (r + 1) c (by omega) ?_
          simp only [List.length_cons] at hlen
          push_cast at hlen ⊢
          omega

/-- C3 (amended): for non-negative coordinates, whenever the shape's
bounding box sticks out of `[0, height) x [0, width)` the source's
dimension check fires and `canShapeFitOnGridAtCoordinates` returns `false`
without reading any cell; and for any non-negative row (with an arbitrary,
possibly negative, column) the function never throws on a well-formed
cells matrix — out-of-range column reads behave as reading an empty cell.
(For a negative `row` the JS function can throw, and for a negative `col`
it can return `true`; see the counterexample.) -/
theorem c3_boundary_safety (g : Grid) (s : Shape) :
    (∀ row col : Nat, (g.height < row + s.length ∨ g.width < col + shapeWidth s) →
      canShapeFitOnGridAtCoordinatesJS g s (row : Int) (col : Int) = some false) ∧
    (∀ (row : Nat) (col : Int), g.cells.length = g.height →
      (canShapeFitOnGridAtCoordinatesJS g s (row : Int) col).isSome = true) := by
  constructor
  · intro row col h
    unfold canShapeFitOnGridAtCoordinatesJS
    have hcond : (decide ((g.height : Int) < (row : Int) + s.length) ||
        decide ((g.width : Int) < (col : Int) + shapeWidth s)) = true := by
      simp only [Bool.or_eq_true, decide_eq_true_eq]
      rcases h with h | h
      · left
        omega
      · right
        omega
    rw [if_pos hcond]
  · intro row col hlen
    unfold canShapeFitOnGridAtCoordinatesJS
    split
    · rfl
    · rename_i hcond
      simp only [Bool.or_eq_true, decide_eq_true_eq, not_or, Int.not_lt] at hcond
      refine shapeFitsJS_isSome s g.cells (row : Int) col (by omega) ?_
      rw [hlen]
      exact hcond.1

/-- Witness for C3 (amended) on a 1-by-1 grid. -/
theorem c3_witness :
    canShapeFitOnGridAtCoordinatesJS
      { width := 1, height := 1, widestRowWidth := 0, highestColumnHeight := 0,
        cells := [[false]] } [[true]] (2 : Int) (0 : Int) = some false ∧
    (canShapeFitOnGridAtCoordinatesJS
      { width := 1, height := 1, widestRowWidth := 0, highestColumnHeight := 0,
        cells := [[false]] } [[true]] (0 : Int) (-5 : Int)).isSome = true :=
  ⟨(c3_boundary_safety _ [[true]]).1 2 0 (by decide),
   (c3_boundary_safety _ [[true]]).2 0 (-5) rfl⟩

/-- Counterexample to C3 as stated: at `(row, col) = (0, -1)` the 1-by-2
bar's bounding box is not inside the 1-by-1 grid (it covers column -1),
yet the function returns `true`, not `false` — the out-of-range read at
column -1 is treated as an empty cell and the dimension check
`col + shape[0].length > width` does not catch negative columns.  At
`(row, col) = (-1, 0)` the function does not even return: it throws
(`none`), because `grid.cells[-1]` is `undefined`. -/
theorem c3_counterexample :
    canShapeFitOnGridAtCoordinatesJS
      { width := 1, height := 1, widestRowWidth := 0, highestColumnHeight := 0,
        cells := [[false]] } [[true, true]] (0 : Int) (-1 : Int) = some true ∧
    canShapeFitOnGridAtCoordinatesJS
      { width := 3, height := 3, widestRowWidth := 0, highestColumnHeight := 0,
        cells := [[false, false, false], [false, false, false], [false, false, false]] }
      [[true]] (-1 : Int) (0 : Int) = none := by
  constructor
  · decide
  · decide

/-! ## The first-pass sort (claim C5) -/

/-- C5 (amended): the first pass yields exactly the legal placements
strictly inside the current bounding envelope — a permutation of their
row-major enumeration.  The source's comparator
(`a.widestRowWidth < b.widestRowWidth && a.highestColumnHeight <
b.highestColumnHeight ? -1 : 1`) is not a consistent ordering (it never
returns 0 and is asymmetric on incomparable extents), so the pass does
not guarantee componentwise non-decreasing extents between consecutive
grids — see the counterexample. -/
theorem c5_first_pass_permutation (grid : Grid) (present : Present) :
    (firstPassPlacements grid present).Perm
      (generateAllValidWaysToFitPresentInGridForCoordinateRanges grid present
        0 grid.highestColumnHeight 0 grid.widestRowWidth) :=
  List.perm_insertionSort _ _

/-- Counterexample to C5 as stated: on a 3-by-3 grid with envelope (2, 2)
and one occupied cell at (1, 1), placing a domino yields pass-1 extents
(2,3), (3,2), (2,2), (2,2) — consecutive extents are not componentwise
non-decreasing (indeed (3,2) and (2,3) are incomparable, so *no* order of
these placements could be). -/
theorem c5_counterexample :
    ¬ List.Chain'
      (fun a b : Grid => a.widestRowWidth ≤ b.widestRowWidth ∧
        a.highestColumnHeight ≤ b.highestColumnHeight)
      (firstPassPlacements
        { width := 3, height := 3, widestRowWidth := 2, highestColumnHeight := 2,
          cells := [[false, false, false], [false, true, false], [false, false, false]] }
        { width := 2, height := 1, coveredArea := 2,
          shapeVariations := computeShapeVariations [[true, true]] }) := by
  intro h
  have hmap := List.chain'_map_of_chain'
    (fun g : Grid => (g.widestRowWidth, g.highestColumnHeight))
    (S := fun p q : Nat × Nat => p.1 ≤ q.1 ∧ p.2 ≤ q.2)
    (fun a b hab => hab) h
  have hlist : ((firstPassPlacements
      { width := 3, height := 3, widestRowWidth := 2, highestColumnHeight := 2,
        cells := [[false, false, false], [false, true, false], [false, false, false]] }
      { width := 2, height := 1, coveredArea := 2,
        shapeVariations := computeShapeVariations [[true, true]] }).map
      fun g : Grid => (g.widestRowWidth, g.highestColumnHeight))
      = [(2, 3), (3, 2), (2, 2), (2, 2)] := by decide
  rw [hlist] at hmap
  have := (List.chain'_cons.mp (List.chain'_cons.mp hmap).2).1
  omega

/-! ## The third pass of the placement enumerator (claim C6) -/

theorem flatMap_intRange_high {f : Nat → List Grid} {s : Nat} {t1 t2 : Int}
    (h1 : t1 ≤ t2) (hzero : ∀ n : Nat, t1 ≤ (n : Int) → f n = []) :
    (intRange s t2).flatMap f = (intRange s t1).flatMap f := by
  unfold intRange
  have ha : (t1 - (s : Int)).toNat ≤ (t2 - (s : Int)).toNat := by omega
  obtain ⟨d, hd⟩ : ∃ d, (t2 - (s : Int)).toNat = (t1 - (s : Int)).toNat + d :=
    ⟨_, (Nat.add_sub_cancel' ha).symm⟩
  rw [hd, List.range_add, List.map_append, List.flatMap_append]
  have htail : (((List.range d).map fun x => (t1 - (s : Int)).toNat + x).map (s + ·)).flatMap f
      = [] := by
    rw [List.flatMap_eq_nil_iff]
    intro n hn
    simp only [List.mem_map, List.mem_range] at hn
    obtain ⟨x, _, rfl⟩ := hn
    apply hzero
    push_cast
    omega
  rw [htail, List.append_nil]

/-- C6 (amended): the third pass iterates rows from `highestColumnHeight`
with the (harmless, since every variant is at least one row tall) end
bound `height + present.height + 1`; it yields exactly the row-major
enumeration over `row ∈ [highestColumnHeight, height)` and
`col ∈ [0, width - present.width]`, one grid per variant that fits.
Legal placements can therefore occur at rows above
`height - present.height` whenever a rotated variant is shorter than the
present's nominal height — the row range claimed by the spec text. -/
theorem c6_third_pass_rows (grid : Grid) (present : Present)
    (hv : ∀ v ∈ present.shapeVariations, 1 ≤ v.length) :
    thirdPassPlacements grid present =
      generateAllValidWaysToFitPresentInGridForCoordinateRanges grid present
        grid.highestColumnHeight (grid.height : Int) 0 ((grid.width : Int) - present.width + 1) := by
  unfold thirdPassPlacements generateAllValidWaysToFitPresentInGridForCoordinateRanges
  apply flatMap_intRange_high (by omega)
  intro n hn
  simp only [List.flatMap_eq_nil_iff]
  intro col _
  unfold generateAllValidWaysToFitPresentInGridAtCoordinates
  rw [List.filterMap_eq_nil_iff]
  intro v hvmem
  have hfit : canShapeFitOnGridAtCoordinates grid v n col = false := by
    unfold canShapeFitOnGridAtCoordinates
    have hcond : (decide (grid.height < n + v.length) ||
        decide (grid.width < col + shapeWidth v)) = true := by
      simp only [Bool.or_eq_true, decide_eq_true_eq]
      left
      have := hv v hvmem
      omega
    rw [if_pos hcond]
  rw [hfit]
  rfl

/-- Witness for C6 (amended): the vertical domino on an empty 2-by-2
grid. -/
theorem c6_witness :
    thirdPassPlacements (buildEmptyRegionGrid 2 2)
      { width := 1, height := 2, coveredArea := 2,
        shapeVariations := computeShapeVariations [[true], [true]] } =
      generateAllValidWaysToFitPresentInGridForCoordinateRanges (buildEmptyRegionGrid 2 2)
        { width := 1, height := 2, coveredArea := 2,
          shapeVariations := computeShapeVariations [[true], [true]] }
        (buildEmptyRegionGrid 2 2).highestColumnHeight ((buildEmptyRegionGrid 2 2).height : Int)
        0 (((buildEmptyRegionGrid 2 2).width : Int) -
          ({ width := 1, height := 2, coveredArea := 2,
             shapeVariations := computeShapeVariations [[true], [true]] } : Present).width + 1) :=
  c6_third_pass_rows (buildEmptyRegionGrid 2 2)
    { width := 1, height := 2, coveredArea := 2,
      shapeVariations := computeShapeVariations [[true], [true]] } (by decide)

/-- Counterexample to C6 as stated: for the vertical domino present
(nominal height 2, whose variations include the 1-by-2 horizontal
rotation) on an empty 2-by-2 grid, the third pass yields a grid placed at
row 1, outside the claimed row range `[0, height - present.height] =
[0, 0]`: the pass is *not* the row-major enumeration over that range
(which contains only 3 placements, while the pass yields 4). -/
theorem c6_counterexample :
    thirdPassPlacements (buildEmptyRegionGrid 2 2)
      { width := 1, height := 2, coveredArea := 2,
        shapeVariations := computeShapeVariations [[true], [true]] } ≠
      generateAllValidWaysToFitPresentInGridForCoordinateRanges (buildEmptyRegionGrid 2 2)
        { width := 1, height := 2, coveredArea := 2,
          shapeVariations := computeShapeVariations [[true], [true]] }
        (buildEmptyRegionGrid 2 2).highestColumnHeight
        (((buildEmptyRegionGrid 2 2).height : Int) -
          ({ width := 1, height := 2, coveredArea := 2,
             shapeVariations := computeShapeVariations [[true], [true]] } : Present).height + 1)
        0 (((buildEmptyRegionGrid 2 2).width : Int) -
          ({ width := 1, height := 2, coveredArea := 2,
             shapeVariations := computeShapeVariations [[true], [true]] } : Present).width + 1) := by
  decide

/-! ## Membership in the placement enumerator -/

theorem mem_atCoordinates {grid : Grid} {present : Present} {row col : Nat} {g : Grid}
    (h : g ∈ generateAllValidWaysToFitPresentInGridAtCoordinates grid present row col) :
    ∃ v ∈ present.shapeVariations,
      canShapeFitOnGridAtCoordinates grid v row col = true ∧
        g = placeShapeOnGridAtCoordinates grid v row col := by
  unfold generateAllValidWaysToFitPresentInGridAtCoordinates at h
  rw [List.mem_filterMap] at h
  obtain ⟨v, hv, heq⟩ := h
  by_cases hc : canShapeFitOnGridAtCoordinates grid v row col = true
  · rw [if_pos hc] at heq
    exact ⟨v, hv, hc, (Option.some_inj.mp heq).symm⟩
  · rw [if_neg hc] at heq
    exact absurd heq (by simp)

theorem mem_coordinateRanges {grid : Grid} {present : Present} {rowStart : Nat} {rowStop : Int}
    {colStart : Nat} {colStop : Int} {g : Grid}
    (h : g ∈ generateAllValidWaysToFitPresentInGridForCoordinateRanges grid present
      rowStart rowStop colStart colStop) :
    ∃ row col : Nat, g ∈ generateAllValidWaysToFitPresentInGridAtCoordinates grid present row col := by
  unfold generateAllValidWaysToFitPresentInGridForCoordinateRanges at h
  rw [List.mem_flatMap] at h
  obtain ⟨row, _, h⟩ := h
  rw [List.mem_flatMap] at h
  obtain ⟨col, _, h⟩ := h
  exact ⟨row, col, h⟩

/-- Every grid yielded by `generateAllValidWaysToFitOnePresentInGrid` is
the placement of one of the present's variations at some coordinates
where the fit check succeeded. -/
theorem mem_onePresent {grid : Grid} {present : Present} {g : Grid}
    (h : g ∈ generateAllValidWaysToFitOnePresentInGrid grid present) :
    ∃ v ∈ present.shapeVariations, ∃ row col : Nat,
      canShapeFitOnGridAtCoordinates grid v row col = true ∧
        g = placeShapeOnGridAtCoordinates grid v row col := by
  unfold generateAllValidWaysToFitOnePresentInGrid at h
  have hsplit : g ∈ generateAllValidWaysToFitPresentInGridForCoordinateRanges grid present
        0 grid.highestColumnHeight 0 grid.widestRowWidth ∨
      g ∈ secondPassPlacements grid present ∨ g ∈ thirdPassPlacements grid present := by
    rcases List.mem_append.mp h with h12 | h3
    · rcases List.mem_append.mp h12 with h1 | h2
      · exact Or.inl ((List.perm_insertionSort _ _).mem_iff.mp h1)
      · exact Or.inr (Or.inl h2)
    · exact Or.inr (Or.inr h3)
  rcases hsplit with h | h | h
  · obtain ⟨row, col, hmem⟩ := mem_coordinateRanges h
    obtain ⟨v, hv, hfit, rfl⟩ := mem_atCoordinates hmem
    exact ⟨v, hv, row, col, hfit, rfl⟩
  · obtain ⟨row, col, hmem⟩ := mem_coordinateRanges h
    obtain ⟨v, hv, hfit, rfl⟩ := mem_atCoordinates hmem
    exact ⟨v, hv, row, col, hfit, rfl⟩
  · obtain ⟨row, col, hmem⟩ := mem_coordinateRanges h
    obtain ⟨v, hv, hfit, rfl⟩ := mem_atCoordinates hmem
    exact ⟨v, hv, row, col, hfit, rfl⟩

/-! ## Reachable grids and the search invariant (claim C9) -/

theorem getD_oob {α : Type} {l : List α} {i : Nat} (h : l.length ≤ i) (d : α) :
    l.getD i d = d := by
  rw [List.getD_eq_getElem?_getD, List.getElem?_eq_none h]
  rfl

theorem wf_occupied_in_bounds {g : Grid} (hg : GridWellFormed g) :
    ∀ i j : Nat, cellGet g.cells i j = true → i < g.height ∧ j < g.width := by
  intro i j hc
  unfold cellGet at hc
  by_cases hi : i < g.cells.length
  · have hrow : (g.cells.getD i []).length = g.width := wf_row_length hg hi
    by_cases hj : j < (g.cells.getD i []).length
    · exact ⟨by rw [← hg.1]; exact hi, by rw [← hrow]; exact hj⟩
    · rw [getD_oob (Nat.le_of_not_lt hj)] at hc
      exact absurd hc (by simp)
  · rw [getD_oob (Nat.le_of_not_lt hi)] at hc
    simp at hc

theorem place_preserves_wf {g : Grid} (hg : GridWellFormed g) (v : Shape) (row col : Nat) :
    GridWellFormed (placeShapeOnGridAtCoordinates g v row col) := by
  constructor
  · simp only [placeShapeOnGridAtCoordinates]
    rw [writeShape_length]
    exact hg.1
  · intro r hr
    simp only [placeShapeOnGridAtCoordinates] at hr
    obtain ⟨k, hk, rfl⟩ := List.mem_iff_getElem.mp hr
    have hk2 : k < g.cells.length := by
      rw [writeShape_length] at hk
      exact hk
    have hgd : (writeShape g.cells v row col).getD k []
        = (writeShape g.cells v row col).get ⟨k, hk⟩ := by
      rw [List.getD_eq_getElem _ _ hk]
      simp
    calc ((writeShape g.cells v row col).get ⟨k, hk⟩).length
        = ((writeShape g.cells v row col).getD k []).length := by rw [hgd]
      _ = (g.cells.getD k []).length := writeShape_row_length v g.cells row col k
      _ = g.width := wf_row_length hg hk2

/-- The grids the backtracking search can ever see: the empty region grid
followed by any sequence of placements produced by the placement
enumerator for presents of the given list. -/
inductive ReachableGrid (presents : List Present) (rows columns : Nat) : Grid → Prop
  | base : ReachableGrid presents rows columns (buildEmptyRegionGrid rows columns)
  | step (g g' : Grid) (p : Present) (hp : p ∈ presents)
      (hre : ReachableGrid presents rows columns g)
      (hmem : g' ∈ generateAllValidWaysToFitOnePresentInGrid g p) :
      ReachableGrid presents rows columns g'

theorem buildEmptyRegionGrid_wf (rows columns : Nat) :
    GridWellFormed (buildEmptyRegionGrid rows columns) := by
  constructor
  · simp [buildEmptyRegionGrid]
  · intro r hr
    simp only [buildEmptyRegionGrid] at hr ⊢
    rw [List.eq_of_mem_replicate hr]
    simp

/-- C9: every grid reachable from `buildEmptyRegionGrid(rows, columns)`
through the placement enumerator is well-formed, keeps
`widestRowWidth ≤ width` and `highestColumnHeight ≤ height`, and every
occupied cell lies inside `[0, height) x [0, width)`; moreover both
envelope fields are monotonically non-decreasing along every enumerator
step. -/
theorem c9_search_invariant (presents : List Present) (rows columns : Nat) :
    (∀ g : Grid, ReachableGrid presents rows columns g →
      GridWellFormed g ∧ g.widestRowWidth ≤ g.width ∧ g.highestColumnHeight ≤ g.height ∧
        ∀ i j : Nat, cellGet g.cells i j = true → i < g.height ∧ j < g.width) ∧
    (∀ (g : Grid) (p : Present) (g' : Grid),
      g' ∈ generateAllValidWaysToFitOnePresentInGrid g p →
      g.widestRowWidth ≤ g'.widestRowWidth ∧
        g.highestColumnHeight ≤ g'.highestColumnHeight) := by
  constructor
  · intro g hreach
    induction hreach with
    | base =>
        refine ⟨buildEmptyRegionGrid_wf rows columns, by simp [buildEmptyRegionGrid],
          by simp [buildEmptyRegionGrid], ?_⟩
        exact wf_occupied_in_bounds (buildEmptyRegionGrid_wf rows columns)
    | step g g' p hp hre hmem ih =>
        obtain ⟨v, hv, row, col, hfit, rfl⟩ := mem_onePresent hmem
        obtain ⟨hwf, hw, hh, _⟩ := ih
        obtain ⟨hrow, hcol, _⟩ := (canShapeFit_iff g v row col).mp hfit
        have hwf2 := place_preserves_wf hwf v row col
        refine ⟨hwf2, ?_, ?_, wf_occupied_in_bounds hwf2⟩
        · simp only [placeShapeOnGridAtCoordinates]
          exact max_le hw hcol
        · simp only [placeShapeOnGridAtCoordinates]
          exact max_le hh hrow
  · intro g p g' hmem
    obtain ⟨v, hv, row, col, hfit, rfl⟩ := mem_onePresent hmem
    constructor
    · simp only [placeShapeOnGridAtCoordinates]
      exact Nat.le_max_left _ _
    · simp only [placeShapeOnGridAtCoordinates]
      exact Nat.le_max_left _ _

/-- Witness for C9: the invariant at the empty 2-by-2 grid, and envelope
monotonicity across a concrete placement of a 1-cell present. -/
theorem c9_witness :
    (GridWellFormed (buildEmptyRegionGrid 2 2) ∧
      (buildEmptyRegionGrid 2 2).widestRowWidth ≤ (buildEmptyRegionGrid 2 2).width ∧
      (buildEmptyRegionGrid 2 2).highestColumnHeight ≤ (buildEmptyRegionGrid 2 2).height ∧
      ∀ i j : Nat, cellGet (buildEmptyRegionGrid 2 2).cells i j = true →
        i < (buildEmptyRegionGrid 2 2).height ∧ j < (buildEmptyRegionGrid 2 2).width) ∧
    ((buildEmptyRegionGrid 2 2).widestRowWidth ≤
        (placeShapeOnGridAtCoordinates (buildEmptyRegionGrid 2 2) [[true]] 0 0).widestRowWidth ∧
      (buildEmptyRegionGrid 2 2).highestColumnHeight ≤
        (placeShapeOnGridAtCoordinates (buildEmptyRegionGrid 2 2) [[true]] 0 0).highestColumnHeight) :=
  ⟨(c9_search_invariant [Present.mk 1 1 1 [[[true]]]] 2 2).1 _ ReachableGrid.base,
   (c9_search_invariant [Present.mk 1 1 1 [[[true]]]] 2 2).2 (buildEmptyRegionGrid 2 2)
     (Present.mk 1 1 1 [[[true]]])
     (placeShapeOnGridAtCoordinates (buildEmptyRegionGrid 2 2) [[true]] 0 0)
     (by decide)⟩

/-! ## Counting occupied cells (for claim C1) -/

/-- Total number of occupied cells of a grid's occupancy matrix. -/
def occupiedCellCount (cells : List (List Bool)) : Nat :=
  (cells.map fun r => r.count true).sum

theorem count_set_bool : ∀ {l : List Bool} {i : Nat}, i < l.length → ∀ v : Bool,
    (l.set i v).count true + (if l.getD i false then 1 else 0)
      = l.count true + (if v then 1 else 0)
  | [], i, h, _ => absurd h (by simp)
  | x :: xs, 0, _, v => by
      simp only [List.set, List.count_cons, List.getD_cons_zero]
      cases x <;> cases v <;> simp <;> omega
  | x :: xs, i + 1, h, v => by
      simp only [List.set, List.count_cons, List.getD_cons_succ]
      have := count_set_bool (l := xs) (i := i) (by simpa using h) v
      omega

theorem natSumSet : ∀ {l : List Nat} {i : Nat}, i < l.length → ∀ v : Nat,
    (l.set i v).sum + l.getD i 0 = l.sum + v
  | [], i, h, _ => absurd h (by simp)
  | x :: xs, 0, _, v => by
      simp only [List.set, List.sum_cons, List.getD_cons_zero]
      omega
  | x :: xs, i + 1, h, v => by
      simp only [List.set, List.sum_cons, List.getD_cons_succ]
      have := natSumSet (l := xs) (i := i) (by simpa using h) v
      omega

theorem occupiedCellCount_set {cells : List (List Bool)} {r : Nat} (hr : r < cells.length)
    (newRow : List Bool) :
    occupiedCellCount (cells.set r newRow) + (cells.getD r []).count true
      = occupiedCellCount cells + newRow.count true := by
  unfold occupiedCellCount
  rw [List.map_set]
  have hr2 : r < (cells.map fun rr => rr.count true).length := by simpa using hr
  have hsum := natSumSet hr2 (newRow.count true)
  have hgd : (cells.map fun rr => rr.count true).getD r 0 = (cells.getD r []).count true := by
    rw [List.getD_eq_getElem _ _ hr2, List.getElem_map, List.getD_eq_getElem _ _ hr]
  rw [hgd] at hsum
  exact hsum

theorem rowWrite_count : ∀ (srow row : List Bool) (c : Nat),
    c + srow.length ≤ row.length →
    (∀ j, j < srow.length → ¬(row.getD (c + j) false = true ∧ srow.getD j false = true)) →
    (rowWrite row srow c).count true = row.count true + srow.count true
  | [], row, c, _, _ => by simp [rowWrite]
  | b :: rest, row, c, hlen, hdis => by
      rw [rowWrite]
      have hc : c < row.length := by
        simp only [List.length_cons] at hlen
        omega
      have hd0 := hdis 0 (by simp)
      simp only [Nat.add_zero, List.getD_cons_zero] at hd0
      have hlen2 : (c + 1) + rest.length ≤ (row.set c (row.getD c false || b)).length := by
        rw [List.length_set]
        simp only [List.length_cons] at hlen
        omega
      have hdis2 : ∀ j, j < rest.length →
          ¬((row.set c (row.getD c false || b)).getD ((c + 1) + j) false = true ∧
            rest.getD j false = true) := by
        intro j hj
        rw [getD_set_other (by omega : c ≠ c + 1 + j)]
        have := hdis (j + 1) (by simpa using Nat.succ_lt_succ hj)
        have harith : c + (j + 1) = c + 1 + j := by omega
        rw [harith] at this
        simpa using this
      rw [rowWrite_count rest _ (c + 1) hlen2 hdis2, List.count_cons]
      have hcount := count_set_bool hc (row.getD c false || b)
      revert hd0 hcount
      generalize row.getD c false = x
      intro hd0 hcount
      cases x <;> cases b
      · simp only [Bool.or_false] at hcount ⊢
        simp at hcount ⊢
        omega
      · simp only [Bool.or_true] at hcount ⊢
        simp at hcount ⊢
        omega
      · simp only [Bool.or_false] at hcount ⊢
        simp at hcount ⊢
        omega
      · exact absurd ⟨rfl, rfl⟩ hd0

theorem shapeFits_congr : ∀ (s : Shape) (cells1 cells2 : List (List Bool)) (r c : Nat),
    (∀ i, i < s.length → cells1.getD (r + i) [] = cells2.getD (r + i) []) →
    shapeFits cells1 s r c = shapeFits cells2 s r c
  | [], _, _, _, _, _ => rfl
  | srow :: srest, cells1, cells2, r, c, h => by
      rw [shapeFits, shapeFits]
      have h0 : cells1.getD r [] = cells2.getD r [] := by
        have := h 0 (by simp)
        simpa using this
      have hrest : ∀ i, i < srest.length → cells1.getD (r + 1 + i) [] = cells2.getD (r + 1 + i) [] := by
        intro i hi
        have := h (i + 1) (by simpa using Nat.succ_lt_succ hi)
        have harith : r + (i + 1) = r + 1 + i := by omega
        rw [harith] at this
        exact this
      rw [h0, shapeFits_congr srest cells1 cells2 (r + 1) c hrest]

theorem writeShape_count : ∀ (s : Shape) (cells : List (List Bool)) (r c : Nat),
    r + s.length ≤ cells.length →
    (∀ i, i < s.length → c + (s.getD i []).length ≤ (cells.getD (r + i) []).length) →
    shapeFits cells s r c = true →
    occupiedCellCount (writeShape cells s r c)
      = occupiedCellCount cells + (s.map fun rr => rr.count true).sum
  | [], cells, r, c, _, _, _ => by simp [writeShape]
  | srow :: srest, cells, r, c, hlen, hrows, hfits => by
      rw [writeShape]
      have hr : r < cells.length := by
        simp only [List.length_cons] at hlen
        omega
      have hrow0 : c + srow.length ≤ (cells.getD r []).length := by
        have := hrows 0 (by simp)
        simpa using this
      rw [shapeFits, Bool.and_eq_true] at hfits
      obtain ⟨hrowfit, hrestfit⟩ := hfits
      have hdis := (rowFits_iff srow (cells.getD r []) c).mp hrowfit
      have hnewcount : (rowWrite (cells.getD r []) srow c).count true
          = (cells.getD r []).count true + srow.count true :=
        rowWrite_count srow (cells.getD r []) c hrow0 (by
          intro j hj
          exact hdis j hj)
      have hocc := occupiedCellCount_set hr (rowWrite (cells.getD r []) srow c)
      rw [hnewcount] at hocc
      have hlen2 : (r + 1) + srest.length ≤
          (cells.set r (rowWrite (cells.getD r []) srow c)).length := by
        rw [List.length_set]
        simp only [List.length_cons] at hlen
        omega
      have hrowseq : ∀ i, i < srest.length →
          (cells.set r (rowWrite (cells.getD r []) srow c)).getD (r + 1 + i) []
            = cells.getD (r + 1 + i) [] := by
        intro i _
        exact getD_set_other (by omega : r ≠ r + 1 + i) _ _
      have hrows2 : ∀ i, i < srest.length →
          c + (srest.getD i []).length ≤
            ((cells.set r (rowWrite (cells.getD r []) srow c)).getD (r + 1 + i) []).length := by
        intro i hi
        rw [hrowseq i hi]
        have := hrows (i + 1) (by simpa using Nat.succ_lt_succ hi)
        have harith : r + (i + 1) = r + 1 + i := by omega
        rw [harith] at this
        simpa using this
      have hfits2 : shapeFits (cells.set r (rowWrite (cells.getD r []) srow c)) srest (r + 1) c
          = true := by
        rw [shapeFits_congr srest _ cells (r + 1) c hrowseq]
        exact hrestfit
      rw [writeShape_count srest _ (r + 1) c hlen2 hrows2 hfits2]
      simp only [List.map_cons, List.sum_cons]
      omega

/-- Placing a variant that passed the fit check adds exactly the
variant's filled-cell count to the number of occupied cells. -/
theorem place_occupied_count {g : Grid} (hg : GridWellFormed g) {v : Shape} {row col : Nat}
    (hrect : ∀ rr ∈ v, rr.length = shapeWidth v)
    (hfit : canShapeFitOnGridAtCoordinates g v row col = true) :
    occupiedCellCount (placeShapeOnGridAtCoordinates g v row col).cells
      = occupiedCellCount g.cells + shapeCoveredArea v := by
  obtain ⟨hrow, hcol, hfits⟩ := (canShapeFit_iff g v row col).mp hfit
  have hlen : row + v.length ≤ g.cells.length := by
    rw [hg.1]
    exact hrow
  have hrows : ∀ i, i < v.length →
      col + (v.getD i []).length ≤ (g.cells.getD (row + i) []).length := by
    intro i hi
    rw [hrect _ (getD_mem hi []), wf_row_length hg (by omega)]
    exact hcol
  have := writeShape_count v g.cells row col hlen hrows hfits
  simp only [placeShapeOnGridAtCoordinates]
  rw [this, shapeCoveredArea_eq_sum]

theorem occupiedCellCount_empty (rows columns : Nat) :
    occupiedCellCount (buildEmptyRegionGrid rows columns).cells = 0 := by
  simp [occupiedCellCount, buildEmptyRegionGrid, List.map_replicate, List.count_replicate,
    List.sum_replicate]

theorem occupiedCellCount_le {g : Grid} (hg : GridWellFormed g) :
    occupiedCellCount g.cells ≤ g.height * g.width := by
  unfold occupiedCellCount
  have hb := List.sum_le_card_nsmul (g.cells.map fun r => r.count true) g.width (by
    intro x hx
    rw [List.mem_map] at hx
    obtain ⟨r, hr, rfl⟩ := hx
    calc r.count true ≤ r.length := List.count_le_length true r
      _ = g.width := hg.2 r hr)
  rw [List.length_map, hg.1, smul_eq_mul] at hb
  exact hb

/-! ## The backtracking search (claim C1) -/

theorem search_eq_of_none {grid : Grid} {presents : List Present} {counts : List Nat}
    (h : counts.findIdx? (fun presentCount => 0 < presentCount) = none) :
    generateAllValidWaysToFitPresentsInGrid grid presents counts = [grid] := by
  rw [generateAllValidWaysToFitPresentsInGrid.eq_def]
  split
  · rfl
  · rename_i i heq
    rw [h] at heq
    simp at heq

theorem search_eq_of_some {grid : Grid} {presents : List Present} {counts : List Nat} {i : Nat}
    (h : counts.findIdx? (fun presentCount => 0 < presentCount) = some i) :
    generateAllValidWaysToFitPresentsInGrid grid presents counts =
      (generateAllValidWaysToFitOnePresentInGrid grid
          (presents.getD i outOfRangePresent)).flatMap
        fun newGrid => generateAllValidWaysToFitPresentsInGrid newGrid presents
          (counts.set i (counts.getD i 0 - 1)) := by
  rw [generateAllValidWaysToFitPresentsInGrid.eq_def]
  split
  · rename_i heq
    rw [h] at heq
    simp at heq
  · rename_i j heq
    rw [h] at heq
    obtain rfl : j = i := by
      have := Option.some_inj.mp heq
      omega
    rfl

theorem findIdx_pos_spec {counts : List Nat} {i : Nat}
    (h : counts.findIdx? (fun presentCount => 0 < presentCount) = some i) :
    i < counts.length ∧ 0 < counts.getD i 0 := by
  rw [List.findIdx?_eq_some_iff_findIdx_eq] at h
  obtain ⟨hlt, hidx⟩ := h
  subst hidx
  have hp := @List.findIdx_getElem _ (fun presentCount => decide (0 < presentCount))
    counts hlt
  simp only [decide_eq_true_eq] at hp
  refine ⟨hlt, ?_⟩
  rw [List.getD_eq_getElem _ _ hlt]
  exact hp

theorem totalCoveredAreaOf_eq_zero : ∀ (presents : List Present) (counts : List Nat) (k : Nat),
    (∀ cc ∈ counts, cc = 0) → totalCoveredAreaOf presents counts k = 0
  | _, [], _, _ => rfl
  | presents, cc :: rest, k, h => by
      rw [totalCoveredAreaOf, h cc (by simp),
        totalCoveredAreaOf_eq_zero presents rest (k + 1) fun x hx => h x (by simp [hx])]
      simp

theorem totalCoveredAreaOf_set : ∀ (presents : List Present) (counts : List Nat) (k i c : Nat),
    i < counts.length → counts.getD i 0 = c + 1 →
    totalCoveredAreaOf presents (counts.set i c) k +
        (presents.getD (k + i) outOfRangePresent).coveredArea
      = totalCoveredAreaOf presents counts k
  | _, [], _, i, _, h, _ => absurd h (by simp)
  | presents, cc :: rest, k, 0, c, _, hgd => by
      simp only [List.getD_cons_zero] at hgd
      subst hgd
      rw [List.set, totalCoveredAreaOf, totalCoveredAreaOf]
      simp only [Nat.add_zero]
      rw [Nat.mul_succ]
      omega
  | presents, cc :: rest, k, i + 1, c, h, hgd => by
      simp only [List.getD_cons_succ] at hgd
      rw [List.set, totalCoveredAreaOf, totalCoveredAreaOf]
      have hrec := totalCoveredAreaOf_set presents rest (k + 1) i c (by simpa using h) hgd
      have harith : k + (i + 1) = (k + 1) + i := by omega
      rw [harith]
      omega

/-- Every grid the search yields is obtained from the starting grid by
placing each still-required present exactly once: its dimensions are
preserved, it stays well-formed, and its occupied-cell count is the
starting count plus the total covered area of the remaining counts. -/
theorem search_mem_spec (presents : List Present)
    (hwf : ∀ p ∈ presents, ∀ v ∈ p.shapeVariations,
      (∀ rr ∈ v, rr.length = shapeWidth v) ∧ shapeCoveredArea v = p.coveredArea) :
    ∀ (n : Nat) (counts : List Nat), counts.sum = n → counts.length = presents.length →
      ∀ (g g' : Grid), GridWellFormed g →
        g' ∈ generateAllValidWaysToFitPresentsInGrid g presents counts →
        GridWellFormed g' ∧ g'.width = g.width ∧ g'.height = g.height ∧
          occupiedCellCount g'.cells
            = occupiedCellCount g.cells + totalCoveredAreaOf presents counts 0 := by
  intro n
  induction n using Nat.strong_induction_on with
  | _ n ih =>
    intro counts hsum hlen g g' hg hmem
    cases hfind : counts.findIdx? (fun presentCount => 0 < presentCount) with
    | none =>
        rw [search_eq_of_none hfind] at hmem
        have hg'g : g' = g := by simpa using hmem
        subst hg'g
        have hzero : totalCoveredAreaOf presents counts 0 = 0 := by
          apply totalCoveredAreaOf_eq_zero
          intro cc hcc
          have := List.findIdx?_eq_none_iff.mp hfind cc hcc
          simpa using this
        rw [hzero]
        exact ⟨hg, rfl, rfl, by omega⟩
    | some i =>
        rw [search_eq_of_some hfind] at hmem
        rw [List.mem_flatMap] at hmem
        obtain ⟨g2, hg2mem, hg'mem⟩ := hmem
        obtain ⟨hi, hpos⟩ := findIdx_pos_spec hfind
        obtain ⟨v, hv, row, col, hfit, rfl⟩ := mem_onePresent hg2mem
        have hp : presents.getD i outOfRangePresent ∈ presents := by
          apply getD_mem
          rw [← hlen]
          exact hi
        obtain ⟨hrect, harea⟩ := hwf _ hp v hv
        have hg2wf : GridWellFormed (placeShapeOnGridAtCoordinates g v row col) :=
          place_preserves_wf hg v row col
        have hocc2 := place_occupied_count hg hrect hfit
        obtain ⟨c0, hc0⟩ : ∃ c0, counts.getD i 0 = c0 + 1 := ⟨counts.getD i 0 - 1, by omega⟩
        have hsum2 : (counts.set i (counts.getD i 0 - 1)).sum < n := by
          rw [← hsum]
          exact sumSetLt hi (by omega)
        have hlen2 : (counts.set i (counts.getD i 0 - 1)).length = presents.length := by
          rw [List.length_set]
          exact hlen
        obtain ⟨hwf2, hww, hhh, hocc'⟩ := ih (counts.set i (counts.getD i 0 - 1)).sum hsum2
          (counts.set i (counts.getD i 0 - 1)) rfl hlen2 _ g' hg2wf hg'mem
        refine ⟨hwf2, by rw [hww]; rfl, by rw [hhh]; rfl, ?_⟩
        rw [hocc', hocc2, harea]
        have hset := totalCoveredAreaOf_set presents counts 0 i c0 hi hc0
        have hceq : counts.set i (counts.getD i 0 - 1) = counts.set i c0 := by
          rw [hc0, Nat.add_sub_cancel]
        rw [hceq]
        simp only [Nat.zero_add] at hset
        omega

/-- C1: if the total covered area of the required presents exceeds the
region's area, `canPresentsFitInRegion` returns `false` at the area
pre-check, and the full backtracking search on the empty region grid
yields no grid at all — the pre-check is a sound necessary condition. -/
theorem c1_area_precheck_sound (region : TreeRegion) (presents : List Present)
    (hlen : region.presentsToFit.length = presents.length)
    (hwf : ∀ p ∈ presents, ∀ v ∈ p.shapeVariations,
      (∀ rr ∈ v, rr.length = shapeWidth v) ∧ shapeCoveredArea v = p.coveredArea)
    (harea : region.width * region.height < totalCoveredAreaOf presents region.presentsToFit 0) :
    canPresentsFitInRegion region presents = false ∧
      generateAllValidWaysToFitPresentsInGrid
        (buildEmptyRegionGrid region.height region.width) presents region.presentsToFit = [] := by
  constructor
  · simp only [canPresentsFitInRegion]
    rw [if_pos harea]
  · by_contra hne
    obtain ⟨g', hg'⟩ := List.exists_mem_of_ne_nil _ hne
    obtain ⟨hwf', hww, hhh, hocc⟩ := search_mem_spec presents hwf region.presentsToFit.sum
      region.presentsToFit rfl hlen _ g'
      (buildEmptyRegionGrid_wf region.height region.width) hg'
    rw [occupiedCellCount_empty] at hocc
    have hbound := occupiedCellCount_le hwf'
    rw [hww, hhh] at hbound
    simp only [buildEmptyRegionGrid] at hbound
    rw [Nat.mul_comm] at hbound
    omega

/-- Witness for C1: one 1-by-2 domino required in a 1-by-1 region. -/
theorem c1_witness :
    canPresentsFitInRegion (TreeRegion.mk 1 1 [1])
        [Present.mk 2 1 2 (computeShapeVariations [[true, true]])] = false ∧
      generateAllValidWaysToFitPresentsInGrid (buildEmptyRegionGrid 1 1)
        [Present.mk 2 1 2 (computeShapeVariations [[true, true]])] [1] = [] :=
  c1_area_precheck_sound (TreeRegion.mk 1 1 [1])
    [Present.mk 2 1 2 (computeShapeVariations [[true, true]])]
    (by decide) (by decide) (by decide)

/-! ## Existence of a packing when the grid bound accepts (claim C2) -/

/-- A placement `(shape, rowOffset, colOffset)` covers cell `(r, c)`. -/
def PlacementCovers (pl : Shape × Nat × Nat) (r c : Nat) : Prop :=
  pl.2.1 ≤ r ∧ pl.2.2 ≤ c ∧ (pl.1.getD (r - pl.2.1) []).getD (c - pl.2.2) false = true

/-- Every covered cell of the placement lies inside the region. -/
def PlacementInBounds (W H : Nat) (pl : Shape × Nat × Nat) : Prop :=
  ∀ r c : Nat, PlacementCovers pl r c → r < H ∧ c < W

/-- Two placements cover no common cell. -/
def PlacementsDisjoint (p q : Shape × Nat × Nat) : Prop :=
  ∀ r c : Nat, ¬(PlacementCovers p r c ∧ PlacementCovers q r c)

/-- The spec's notion of a feasible region: for each present type `i`,
exactly `counts[i]` placements of variants of that present, all inside
the `width x height` region and pairwise non-overlapping. -/
def ValidPacking (W H : Nat) (presents : List Present) (counts : List Nat) : Prop :=
  ∃ pls : List (List (Shape × Nat × Nat)),
    pls.length = presents.length ∧
    (∀ i, i < presents.length → (pls.getD i []).length = counts.getD i 0) ∧
    (∀ i, ∀ pl ∈ pls.getD i [],
      pl.1 ∈ (presents.getD i outOfRangePresent).shapeVariations ∧
        PlacementInBounds W H pl) ∧
    pls.flatten.Pairwise PlacementsDisjoint

/-- The shape fits in an `mh`-by-`mw` bounding rectangle. -/
def ShapeFitsBox (mh mw : Nat) (s : Shape) : Prop :=
  s.length ≤ mh ∧ ∀ rr ∈ s, rr.length ≤ mw

/-- The witness packing behind the sufficient bound: number the required
present instances globally and put instance `n` (using the present's
first, original-orientation variant) into cell
`(n / a, n % a)` of the virtual `b x a` grid of `mh x mw` boxes. -/
def buildPacking (presents : List Present) (counts : List Nat) (a mh mw offset : Nat) :
    List (List (Shape × Nat × Nat)) :=
  match presents, counts with
  | [], _ => []
  | _ :: _, [] => []
  | p :: ps, c :: cs =>
      ((List.range c).map fun k =>
        (p.shapeVariations.headD [], ((offset + k) / a) * mh, ((offset + k) % a) * mw)) ::
        buildPacking ps cs a mh mw (offset + c)

theorem headD_mem {α : Type} {l : List α} (h : l ≠ []) (d : α) : l.headD d ∈ l := by
  cases l with
  | nil => exact absurd rfl h
  | cons x xs => simp

theorem covers_in_box {mh mw : Nat} {s : Shape} (hs : ShapeFitsBox mh mw s) {R C r c : Nat}
    (h : PlacementCovers (s, R, C) r c) :
    R ≤ r ∧ r < R + mh ∧ C ≤ c ∧ c < C + mw := by
  obtain ⟨hR, hC, hcell⟩ := h
  simp only at hcell
  have hrow : r - R < s.length := by
    by_contra hge
    rw [getD_oob (Nat.le_of_not_lt hge)] at hcell
    simp at hcell
  have hcol : c - C < (s.getD (r - R) []).length := by
    by_contra hge
    rw [getD_oob (Nat.le_of_not_lt hge)] at hcell
    exact absurd hcell (by simp)
  have hrowlen : (s.getD (r - R) []).length ≤ mw := hs.2 _ (getD_mem hrow [])
  have hsl := hs.1
  exact ⟨hR, by omega, hC, by omega⟩

theorem box_disjoint {a mh mw n m : Nat} (ha : 0 < a) (hne : n ≠ m)
    {s1 s2 : Shape} (h1 : ShapeFitsBox mh mw s1) (h2 : ShapeFitsBox mh mw s2) :
    PlacementsDisjoint (s1, (n / a) * mh, (n % a) * mw) (s2, (m / a) * mh, (m % a) * mw) := by
  rintro r c ⟨hc1, hc2⟩
  obtain ⟨hr1a, hr1b, hc1a, hc1b⟩ := covers_in_box h1 hc1
  obtain ⟨hr2a, hr2b, hc2a, hc2b⟩ := covers_in_box h2 hc2
  by_cases hrow : n / a = m / a
  · have hcol : n % a ≠ m % a := by
      intro hmod
      apply hne
      have hn := Nat.div_add_mod n a
      have hm := Nat.div_add_mod m a
      rw [hrow, hmod] at hn
      omega
    rcases Nat.lt_or_ge (n % a) (m % a) with hlt | hge
    · have hstep : (n % a + 1) * mw ≤ (m % a) * mw := Nat.mul_le_mul_right mw hlt
      rw [Nat.succ_mul] at hstep
      omega
    · have hlt2 : m % a < n % a := by omega
      have hstep : (m % a + 1) * mw ≤ (n % a) * mw := Nat.mul_le_mul_right mw hlt2
      rw [Nat.succ_mul] at hstep
      omega
  · rcases Nat.lt_or_ge (n / a) (m / a) with hlt | hge
    · have hstep : (n / a + 1) * mh ≤ (m / a) * mh := Nat.mul_le_mul_right mh hlt
      rw [Nat.succ_mul] at hstep
      omega
    · have hlt2 : m / a < n / a := by omega
      have hstep : (m / a + 1) * mh ≤ (n / a) * mh := Nat.mul_le_mul_right mh hlt2
      rw [Nat.succ_mul] at hstep
      omega

theorem entry_in_bounds {W H mw mh a b n : Nat} (ha : 0 < a) (hn : n < a * b)
    (haw : a * mw ≤ W) (hbh : b * mh ≤ H) {s : Shape} (hs : ShapeFitsBox mh mw s) :
    PlacementInBounds W H (s, (n / a) * mh, (n % a) * mw) := by
  intro r c hcov
  obtain ⟨_, hr, _, hc⟩ := covers_in_box hs hcov
  constructor
  · have hdiv : n / a < b := by
      rw [Nat.div_lt_iff_lt_mul ha]
      rw [Nat.mul_comm] at hn
      exact hn
    have hstep : (n / a + 1) * mh ≤ b * mh := Nat.mul_le_mul_right mh hdiv
    rw [Nat.succ_mul] at hstep
    omega
  · have hmod : n % a < a := Nat.mod_lt n ha
    have hstep : (n % a + 1) * mw ≤ a * mw := Nat.mul_le_mul_right mw hmod
    rw [Nat.succ_mul] at hstep
    omega

theorem buildPacking_length : ∀ (ps : List Present) (cs : List Nat) (a mh mw off : Nat),
    cs.length = ps.length → (buildPacking ps cs a mh mw off).length = ps.length
  | [], _, _, _, _, _, _ => rfl
  | p :: ps, [], _, _, _, _, h => absurd h (by simp)
  | p :: ps, c :: cs, a, mh, mw, off, h => by
      simp only [buildPacking, List.length_cons]
      rw [buildPacking_length ps cs a mh mw (off + c) (by simpa using h)]

theorem buildPacking_getD_length : ∀ (ps : List Present) (cs : List Nat) (a mh mw off i : Nat),
    cs.length = ps.length → i < ps.length →
    ((buildPacking ps cs a mh mw off).getD i []).length = cs.getD i 0
  | [], _, _, _, _, _, i, _, hi => absurd hi (by simp)
  | p :: ps, [], _, _, _, _, _, h, _ => absurd h (by simp)
  | p :: ps, c :: cs, a, mh, mw, off, 0, _, _ => by
      simp [buildPacking]
  | p :: ps, c :: cs, a, mh, mw, off, i + 1, h, hi => by
      simp only [buildPacking, List.getD_cons_succ]
      exact buildPacking_getD_length ps cs a mh mw (off + c) i (by simpa using h)
        (by simpa using hi)

theorem buildPacking_entry : ∀ (ps : List Present) (cs : List Nat) (a mh mw off i : Nat)
    (pl : Shape × Nat × Nat), pl ∈ (buildPacking ps cs a mh mw off).getD i [] →
    ∃ n : Nat, off ≤ n ∧ n < off + cs.sum ∧
      pl = ((ps.getD i outOfRangePresent).shapeVariations.headD [],
        (n / a) * mh, (n % a) * mw)
  | [], _, _, _, _, _, i, pl, h => absurd (by simpa [buildPacking] using h) (List.not_mem_nil pl)
  | p :: ps, [], _, _, _, _, i, pl, h =>
      absurd (by simpa [buildPacking] using h) (List.not_mem_nil pl)
  | p :: ps, c :: cs, a, mh, mw, off, 0, pl, h => by
      simp only [buildPacking, List.getD_cons_zero, List.mem_map, List.mem_range] at h
      obtain ⟨k, hk, rfl⟩ := h
      refine ⟨off + k, by omega, ?_, by simp⟩
      simp only [List.sum_cons]
      omega
  | p :: ps, c :: cs, a, mh, mw, off, i + 1, pl, h => by
      simp only [buildPacking, List.getD_cons_succ] at h
      obtain ⟨n, hn1, hn2, rfl⟩ := buildPacking_entry ps cs a mh mw (off + c) i pl h
      refine ⟨n, by omega, ?_, by simp⟩
      simp only [List.sum_cons]
      omega

theorem mem_buildPacking_flatten : ∀ (ps : List Present) (cs : List Nat) (a mh mw off : Nat)
    (pl : Shape × Nat × Nat), pl ∈ (buildPacking ps cs a mh mw off).flatten →
    ∃ p ∈ ps, ∃ n : Nat, off ≤ n ∧
      pl = (p.shapeVariations.headD [], (n / a) * mh, (n % a) * mw)
  | [], _, _, _, _, _, pl, h => absurd (by simpa [buildPacking] using h) (List.not_mem_nil pl)
  | p :: ps, [], _, _, _, _, pl, h =>
      absurd (by simpa [buildPacking] using h) (List.not_mem_nil pl)
  | p :: ps, c :: cs, a, mh, mw, off, pl, h => by
      simp only [buildPacking, List.flatten_cons] at h
      rcases List.mem_append.mp h with hrow | hrest
      · simp only [List.mem_map, List.mem_range] at hrow
        obtain ⟨k, _, rfl⟩ := hrow
        exact ⟨p, by simp, off + k, by omega, rfl⟩
      · obtain ⟨q, hq, n, hn, rfl⟩ := mem_buildPacking_flatten ps cs a mh mw (off + c) pl hrest
        exact ⟨q, by simp [hq], n, by omega, rfl⟩

theorem buildPacking_pairwise : ∀ (ps : List Present) (cs : List Nat) (a mh mw off : Nat),
    0 < a → (∀ p ∈ ps, ShapeFitsBox mh mw (p.shapeVariations.headD [])) →
    (buildPacking ps cs a mh mw off).flatten.Pairwise PlacementsDisjoint
  | [], _, _, _, _, _, _, _ => by simp [buildPacking]
  | p :: ps, [], _, _, _, _, _, _ => by simp [buildPacking]
  | p :: ps, c :: cs, a, mh, mw, off, ha, hsh => by
      simp only [buildPacking, List.flatten_cons]
      rw [List.pairwise_append]
      have hp : ShapeFitsBox mh mw (p.shapeVariations.headD []) := hsh p (by simp)
      refine ⟨?_, buildPacking_pairwise ps cs a mh mw (off + c) ha
        (fun q hq => hsh q (by simp [hq])), ?_⟩
      · rw [List.pairwise_map]
        refine (List.pairwise_lt_range c).imp ?_
        intro k1 k2 hlt
        exact box_disjoint ha (by omega) hp hp
      · intro x hx y hy
        simp only [List.mem_map, List.mem_range] at hx
        obtain ⟨k, hk, rfl⟩ := hx
        obtain ⟨q, hq, n, hn, rfl⟩ := mem_buildPacking_flatten ps cs a mh mw (off + c) y hy
        exact box_disjoint ha (by omega) hp (hsh q (by simp [hq]))

theorem foldlMaxGeAcc : ∀ (l : List Present) (f : Present → Nat) (acc : Nat),
    acc ≤ l.foldl (fun m p => if m < f p then f p else m) acc
  | [], _, _ => Nat.le_refl _
  | p :: ps, f, acc => by
      rw [List.foldl_cons]
      refine Nat.le_trans ?_ (foldlMaxGeAcc ps f _)
      split <;> omega

theorem foldlMaxGeMem : ∀ (l : List Present) (f : Present → Nat) (acc : Nat) (p : Present),
    p ∈ l → f p ≤ l.foldl (fun m p => if m < f p then f p else m) acc
  | [], _, _, p, h => absurd h (List.not_mem_nil p)
  | q :: ps, f, acc, p, h => by
      rw [List.foldl_cons]
      rcases List.mem_cons.mp h with rfl | hmem
      · refine Nat.le_trans ?_ (foldlMaxGeAcc ps f _)
        split <;> omega
      · exact foldlMaxGeMem ps f _ p hmem

theorem flatten_replicate_nil {α : Type} : ∀ n : Nat,
    (List.replicate n ([] : List α)).flatten = []
  | 0 => rfl
  | n + 1 => by
      rw [List.replicate_succ, List.flatten_cons, flatten_replicate_nil n]
      rfl

/-- C2: when the area bound passes and the bounding-rectangle grid bound
`⌊width / largestPresentWidth⌋ * ⌊height / largestPresentHeight⌋ ≥ total
required count` holds, `canPresentsFitInRegion` returns `true` at the
second pre-check (before the search code is reached), and a valid
non-overlapping in-bounds packing of all required presents really exists:
number the instances and drop each present's original-orientation variant
into its own `largestPresentHeight x largestPresentWidth` box of the
virtual grid. -/
theorem c2_sufficient_bound_sound (region : TreeRegion) (presents : List Present)
    (hlen : region.presentsToFit.length = presents.length)
    (hpres : ∀ p ∈ presents, 0 < p.width ∧ 0 < p.height ∧
      (p.shapeVariations.headD []).length = p.height ∧
      ∀ rr ∈ p.shapeVariations.headD [], rr.length = p.width)
    (harea : totalCoveredAreaOf presents region.presentsToFit 0 ≤
      region.width * region.height)
    (hbound : region.presentsToFit.sum ≤
      (region.width / largestPresentWidth presents) *
        (region.height / largestPresentHeight presents)) :
    canPresentsFitInRegion region presents = true ∧
      ValidPacking region.width region.height presents region.presentsToFit := by
  constructor
  · simp only [canPresentsFitInRegion]
    rw [if_neg (by omega : ¬ region.width * region.height <
      totalCoveredAreaOf presents region.presentsToFit 0), if_pos hbound]
  · by_cases htot : region.presentsToFit.sum = 0
    · refine ⟨List.replicate presents.length [], by simp, ?_, ?_, ?_⟩
      · intro i hi
        have hgd : (List.replicate presents.length
            ([] : List (Shape × Nat × Nat))).getD i [] = [] := by
          rcases Nat.lt_or_ge i presents.length with hlt | hge
          · rw [List.getD_eq_getElem _ _ (by simpa using hlt)]
            exact List.getElem_replicate _ _
          · exact getD_oob (by simpa using hge) []
        rw [hgd]
        have hmem : region.presentsToFit.getD i 0 ∈ region.presentsToFit :=
          getD_mem (by omega) 0
        have hz := (List.sum_eq_zero_iff.mp htot) _ hmem
        simp only [List.length_nil]
        exact hz.symm
      · intro i pl hpl
        have hgd : (List.replicate presents.length
            ([] : List (Shape × Nat × Nat))).getD i [] = [] := by
          rcases Nat.lt_or_ge i presents.length with hlt | hge
          · rw [List.getD_eq_getElem _ _ (by simpa using hlt)]
            exact List.getElem_replicate _ _
          · exact getD_oob (by simpa using hge) []
        rw [hgd] at hpl
        exact absurd hpl (List.not_mem_nil pl)
      · rw [flatten_replicate_nil]
        exact List.Pairwise.nil
    · have ha : 0 < region.width / largestPresentWidth presents := by
        rcases Nat.eq_zero_or_pos (region.width / largestPresentWidth presents) with h0 | h
        · rw [h0] at hbound
          simp at hbound
          exact absurd hbound htot
        · exact h
      have hb : 0 < region.height / largestPresentHeight presents := by
        rcases Nat.eq_zero_or_pos (region.height / largestPresentHeight presents) with h0 | h
        · rw [h0] at hbound
          simp at hbound
          exact absurd hbound htot
        · exact h
      have hshapes : ∀ p ∈ presents,
          ShapeFitsBox (largestPresentHeight presents) (largestPresentWidth presents)
            (p.shapeVariations.headD []) := by
        intro p hp
        obtain ⟨hw, hh, hhead, hrows⟩ := hpres p hp
        constructor
        · rw [hhead]
          exact foldlMaxGeMem presents (fun q => q.height) 0 p hp
        · intro rr hrr
          rw [hrows rr hrr]
          exact foldlMaxGeMem presents (fun q => q.width) 0 p hp
      refine ⟨buildPacking presents region.presentsToFit
          (region.width / largestPresentWidth presents)
          (largestPresentHeight presents) (largestPresentWidth presents) 0,
        buildPacking_length _ _ _ _ _ _ hlen, ?_, ?_, ?_⟩
      · intro i hi
        exact buildPacking_getD_length presents region.presentsToFit _ _ _ 0 i hlen hi
      · intro i pl hpl
        have hi : i < presents.length := by
          by_contra hge
          have hlen2 := buildPacking_length presents region.presentsToFit
            (region.width / largestPresentWidth presents)
            (largestPresentHeight presents) (largestPresentWidth presents) 0 hlen
          have hgd : (buildPacking presents region.presentsToFit
              (region.width / largestPresentWidth presents)
              (largestPresentHeight presents) (largestPresentWidth presents) 0).getD i []
              = [] := getD_oob (by omega) []
          rw [hgd] at hpl
          exact absurd hpl (List.not_mem_nil pl)
        obtain ⟨n, hn0, hnlt, rfl⟩ := buildPacking_entry presents region.presentsToFit
          _ _ _ 0 i pl hpl
        have hp : presents.getD i outOfRangePresent ∈ presents := getD_mem hi _
        obtain ⟨hw, hh, hhead, _⟩ := hpres _ hp
        constructor
        · apply headD_mem
          intro hnil
          rw [hnil] at hhead
          simp only [List.headD_nil, List.length_nil] at hhead
          omega
        · refine entry_in_bounds ha (by omega) (Nat.div_mul_le_self _ _)
            (Nat.div_mul_le_self _ _) (hshapes _ hp)
      · exact buildPacking_pairwise presents region.presentsToFit _ _ _ 0 ha hshapes

/-- Witness for C2: two 1-cell presents in a 2-by-2 region. -/
theorem c2_witness :
    canPresentsFitInRegion (TreeRegion.mk 2 2 [2]) [Present.mk 1 1 1 [[[true]]]] = true ∧
      ValidPacking 2 2 [Present.mk 1 1 1 [[[true]]]] [2] :=
  c2_sufficient_bound_sound (TreeRegion.mk 2 2 [2]) [Present.mk 1 1 1 [[[true]]]]
    (by decide) (by decide) (by decide) (by decide)

/-! ## Parsing performs no shape validation (claim C8) -/

theorem takeShape_no_blank : ∀ ls : List String, "" ∉ ls →
    takeShape ls = (ls.map shapeRowOfLine, [])
  | [], _ => rfl
  | l :: rest, h => by
      rw [takeShape, if_neg (fun he => h (by simp [he])),
        takeShape_no_blank rest fun hm => h (List.mem_cons_of_mem l hm)]
      simp

theorem takeShape_terminated : ∀ (ls rest : List String), "" ∉ ls →
    takeShape (ls ++ "" :: rest) = (ls.map shapeRowOfLine, rest)
  | [], rest, _ => by simp [takeShape]
  | l :: ls, rest, h => by
      rw [List.cons_append, takeShape, if_neg (fun he => h (by simp [he])),
        takeShape_terminated ls rest fun hm => h (List.mem_cons_of_mem l hm)]
      simp

/-- C8 (amended): `parseInput` performs no validation at all when it
builds a `Present` — there is no `InvalidShape` error in the program.
Any well-delimited shape block, *including one with zero filled cells*,
yields a `Present` whose `width` is the first row's length, `height` the
number of rows, and `coveredArea` the filled-cell count (possibly 0), and
parsing proceeds; the only failures are generic runtime `TypeError`s
(e.g. a header immediately followed by a blank line, where
`shape[0].length` reads a field of `undefined`). -/
theorem c8_parse_no_validation (header : String) (shapeLines rest : List String)
    (hh : isPresentHeaderLine header = true) (hne : shapeLines ≠ []) (hnb : "" ∉ shapeLines) :
    parseInputLines (header :: (shapeLines ++ "" :: rest)) =
      match parseInputLines rest with
      | .error e => .error e
      | .ok (presents, treeRegions) =>
          .ok ({ width := shapeWidth (shapeLines.map shapeRowOfLine)
                 height := (shapeLines.map shapeRowOfLine).length
                 coveredArea := shapeCoveredArea (shapeLines.map shapeRowOfLine)
                 shapeVariations := computeShapeVariations (shapeLines.map shapeRowOfLine) }
              :: presents, treeRegions) := by
  rw [parseInputLines.eq_def]
  dsimp only
  rw [if_pos hh, takeShape_terminated shapeLines rest hnb]
  have hempty : (shapeLines.map shapeRowOfLine).isEmpty = false := by
    cases shapeLines with
    | nil => exact absurd rfl hne
    | cons x xs => rfl
  rw [if_neg (by rw [hempty]; exact Bool.false_ne_true)]

/-- Helper: the same block equation at the end of input (no terminating
blank line). -/
theorem parseInputLines_block_eof (header : String) (shapeLines : List String)
    (hh : isPresentHeaderLine header = true) (hne : shapeLines ≠ []) (hnb : "" ∉ shapeLines) :
    parseInputLines (header :: shapeLines) =
      .ok ([{ width := shapeWidth (shapeLines.map shapeRowOfLine)
              height := (shapeLines.map shapeRowOfLine).length
              coveredArea := shapeCoveredArea (shapeLines.map shapeRowOfLine)
              shapeVariations := computeShapeVariations (shapeLines.map shapeRowOfLine) }], []) := by
  rw [parseInputLines.eq_def]
  dsimp only
  rw [if_pos hh, takeShape_no_blank shapeLines hnb]
  have hempty : (shapeLines.map shapeRowOfLine).isEmpty = false := by
    cases shapeLines with
    | nil => exact absurd rfl hne
    | cons x xs => rfl
  rw [if_neg (by rw [hempty]; exact Bool.false_ne_true)]
  rw [parseInputLines.eq_def]

/-- Witness for C8 (amended): a zero-area 1-by-3 shape block followed by
more input. -/
theorem c8_witness :
    parseInputLines ("1:" :: (["..."] ++ "" :: [])) =
      match parseInputLines [] with
      | .error e => .error e
      | .ok (presents, treeRegions) =>
          .ok ({ width := shapeWidth (["..."].map shapeRowOfLine)
                 height := (["..."].map shapeRowOfLine).length
                 coveredArea := shapeCoveredArea (["..."].map shapeRowOfLine)
                 shapeVariations := computeShapeVariations (["..."].map shapeRowOfLine) }
              :: presents, treeRegions) :=
  c8_parse_no_validation "1:" ["..."] [] (by decide) (by decide) (by decide)

/-- Counterexample to C8 as stated: the input declaring a present whose
1-by-3 shape has zero filled cells is *not* rejected with any
`InvalidShape` error: `parseInput` succeeds and returns a `Present`
record with `coveredArea = 0` (and its rotations), against which the
search would then run. -/
theorem c8_counterexample :
    parseInput ["1:", "..."] =
      .ok ([Present.mk 3 1 0 [[[false, false, false]], [[false], [false], [false]]]], []) := by
  unfold parseInput
  rw [parseInputLines_block_eof "1:" ["..."] (by decide) (by decide) (by decide)]
  rfl
